import Mathlib

/-!
Verification of the core of `src/job_search/jobflare.py` (the "jobflare" TUI):
the URL normalizer, the file reader, the background link-validation engine,
the session screen handlers, and the numeric-input clamping.

The shallow embedding works on `String`/`List Char`.  Python string methods
(`strip`, `isspace`, `splitlines`, `"\n".join`) are modelled by the `py*`
functions below; `urllib.parse.urlsplit` is modelled (CPython 3.11, the two
fields `scheme`/`netloc` that `normalize_url` reads, including the
`ValueError("Invalid IPv6 URL")` it can raise, carried in `Except`).
Network probes and terminal I/O are oracle parameters.
-/

/-- Characters for which Python `str.isspace()` is true (Unicode whitespace). -/
def pyIsSpace (c : Char) : Bool :=
  c ∈ [' ', '\t', '\n', '\r', '\x0b', '\x0c',
       '\x1c', '\x1d', '\x1e', '\x1f', '\x85', '\xa0',
       ' ', ' ', ' ', ' ', ' ', ' ', ' ',
       ' ', ' ', ' ', ' ', ' ', ' ', ' ',
       ' ', ' ', '　']

/-- Line boundaries of Python `str.splitlines()` (besides the `"\r\n"` pair). -/
def isLineBreak (c : Char) : Bool :=
  c ∈ ['\n', '\r', '\x0b', '\x0c', '\x1c', '\x1d', '\x1e', '\x85', ' ', ' ']

/-- Python `str.strip()` on a character list. -/
def pyStripL (l : List Char) : List Char :=
  ((l.dropWhile pyIsSpace).reverse.dropWhile pyIsSpace).reverse

/-- Python `str.strip()`. -/
def pyStrip (s : String) : String := ⟨pyStripL s.data⟩

/-- Helper for `str.splitlines()`: accumulates the current line (reversed). -/
def splitlinesAux : List Char → List Char → List (List Char)
  | [], acc => if acc.isEmpty then [] else [acc.reverse]
  | [c], acc =>
      if isLineBreak c then acc.reverse :: splitlinesAux [] []
      else splitlinesAux [] (c :: acc)
  | c :: c2 :: rest, acc =>
      if c = '\r' ∧ c2 = '\n' then acc.reverse :: splitlinesAux rest []
      else if isLineBreak c then acc.reverse :: splitlinesAux (c2 :: rest) []
      else splitlinesAux (c2 :: rest) (c :: acc)

/-- Python `str.splitlines()`. -/
def pySplitlines (s : String) : List String :=
  (splitlinesAux s.data []).map (fun cs => (⟨cs⟩ : String))

/-- Python `"\n".join` on character lists. -/
def joinNLL : List (List Char) → List Char
  | [] => []
  | [x] => x
  | x :: xs => x ++ '\n' :: joinNLL xs

/-- Python `"\n".join(strings)`. -/
def pyJoinNL (l : List String) : String := ⟨joinNLL (l.map String.data)⟩

/-- Characters allowed in a URL scheme by `urllib.parse` (`scheme_chars`). -/
def schemeChar (c : Char) : Bool :=
  c.isAlpha || c.isDigit || c == '+' || c == '-' || c == '.'

/-- The `scheme` and `netloc` fields of a CPython `urlsplit` result. -/
structure UrlParts where
  scheme : String
  netloc : String
deriving DecidableEq, Repr

/-- CPython 3.11 `urllib.parse.urlsplit`, restricted to the `scheme` and
`netloc` fields used by `normalize_url`: strip C0-control/space characters
from both ends, remove `\t\r\n`, split a well-formed scheme at the first
colon (lowercased), take the authority after `//` up to `/?#`, and raise
`ValueError("Invalid IPv6 URL")` on an unbalanced bracket in the authority
(modelled by `Except.error`). -/
def urlsplit (url : String) : Except String UrlParts :=
  let cs := url.data
  let cs := ((cs.dropWhile (fun c => c.toNat ≤ 0x20)).reverse.dropWhile
      (fun c => c.toNat ≤ 0x20)).reverse
  let cs := cs.filter (fun c => c ≠ '\t' ∧ c ≠ '\r' ∧ c ≠ '\n')
  let pre := cs.takeWhile (fun c => c ≠ ':')
  let (scheme, rest) :=
    if pre.length < cs.length ∧ pre ≠ [] ∧ (pre.headD 'a').isAlpha ∧ pre.all schemeChar
    then (pre.map Char.toLower, cs.drop (pre.length + 1))
    else ([], cs)
  match rest with
  | '/' :: '/' :: r =>
      let netloc := r.takeWhile (fun c => c ≠ '/' ∧ c ≠ '?' ∧ c ≠ '#')
      if (('[' ∈ netloc) ∧ (']' ∉ netloc)) ∨ ((']' ∈ netloc) ∧ ('[' ∉ netloc)) then
        Except.error ("Invalid IPv6 URL")
      else Except.ok ⟨⟨scheme⟩, ⟨netloc⟩⟩
  | _ => Except.ok ⟨⟨scheme⟩, ""⟩

/-- Body of `normalize_url` after the initial `raw.strip()`: the
`.replace("\r", "")`, the blank/comment and interior-whitespace rejections,
the scheme-injection reparse, and the scheme/netloc checks.  A `ValueError`
escaping `urlparse` is propagated as `Except.error`. -/
def normalize_core (stripped : List Char) : Except String (Option String) :=
  let line := stripped.filter (fun c => c ≠ '\r')
  if line = [] ∨ line.headD '#' = '#' then Except.ok none
  else if line.any pyIsSpace then Except.ok none
  else
    match urlsplit ⟨line⟩ with
    | Except.error e => Except.error e
    | Except.ok parsed0 =>
      let lp : List Char × Except String UrlParts :=
        if parsed0.scheme = "" then
          let line' := ("https://").data ++ line
          (line', urlsplit ⟨line'⟩)
        else (line, Except.ok parsed0)
      match lp.2 with
      | Except.error e => Except.error e
      | Except.ok parsed =>
        if parsed.scheme ≠ "http" ∧ parsed.scheme ≠ "https" then Except.ok none
        else if parsed.netloc = "" then Except.ok none
        else Except.ok (some ⟨lp.1⟩)

/-- `normalize_url` from jobflare: raw line to canonical URL (`some`),
rejection (`none`), or an uncaught `ValueError` (`Except.error`). -/
def normalize_url (raw : String) : Except String (Option String) :=
  normalize_core (pyStripL raw.data)

/-- Loop body of `read_urls`: normalize every line, collect accepted URLs in
order, count rejected non-blank lines as skipped, count all lines. -/
def read_urls_go : List String → Except String (List String × Nat × Nat)
  | [] => Except.ok ([], 0, 0)
  | raw :: rest =>
    match normalize_url raw with
    | Except.error e => Except.error e
    | Except.ok url? =>
      match read_urls_go rest with
      | Except.error e => Except.error e
      | Except.ok (urls, skipped, total) =>
        match url? with
        | some u => Except.ok (u :: urls, skipped, total + 1)
        | none =>
          Except.ok (urls, (if pyStrip raw ≠ "" then skipped + 1 else skipped), total + 1)

/-- `read_urls` from jobflare, on the text content of the jobs file
(the existence check and file read are outside the model). -/
def read_urls (content : String) : Except String (List String × Nat × Nat) :=
  read_urls_go (pySplitlines content)

/-!
## Validation engine (`run_validation` / `start_validation`)

The run is embedded as the sequence of shared-state observations the
interactive thread can make: every assignment `run_validation` performs on
the shared `AppState` fields (`validation_completed`, `validation_valid`,
`validation_failed`, `validation_status`) and on the two artifact files is
one step of the trace.  Network probes are an oracle (`Option String` per
URL: `some u` means the final, possibly redirected, URL `u` answered with
status < 400; `none` means both probes failed).  The cooperative
cancellation flag is modelled by the iteration index from which
`validation_cancel.is_set()` reads true, and run-level write failures by
two booleans (`wv` for `jobs_validated.txt`, `wr` for `jobs_report.txt`).
-/

/-- Terminal/observable status of a validation run. -/
inductive VStatus where
  | running | cancelled | done | error
deriving DecidableEq, Repr

/-- One observation of the shared validation state: counters, status and
the two artifact files (`none` = untouched since before the run). -/
structure VObs where
  status : VStatus
  total : Nat
  completed : Nat
  valid : Nat
  failed : Nat
  validatedArt : Option String
  reportArt : Option String
deriving DecidableEq, Repr

/-- One work item: the requested URL and its probe outcome. -/
abbrev ProbeItem := String × Option String

/-- Value of `state.validation_cancel.is_set()` at the check before URL `i`:
`some k` means the flag was set after exactly `k` URLs had been processed. -/
def cancelHit (cancelFrom : Option Nat) (i : Nat) : Bool :=
  match cancelFrom with
  | none => false
  | some k => decide (k ≤ i)

/-- Content written to `jobs_validated.txt`: `"\n".join(validated) + "\n"`. -/
def validatedContent (validated : List String) : String :=
  pyJoinNL validated ++ "\n"

/-- The `report_lines` list built by `run_validation`. -/
def reportLines (validated failed : List String) : List String :=
  ["Validated: " ++ Nat.repr validated.length,
   "Failed: " ++ Nat.repr failed.length,
   "",
   "Failed URLs:"] ++ failed

/-- Content written to `jobs_report.txt`:
`"\n".join(report_lines).strip() + "\n"`. -/
def reportContent (validated failed : List String) : String :=
  pyStrip (pyJoinNL (reportLines validated failed)) ++ "\n"

/-- Observations of the write-back phase: write `jobs_validated.txt`, write
`jobs_report.txt`, set status `"done"`; a failing write raises, and the
`except` handler sets status `"error"` instead. -/
def finishSteps (wv wr : Bool) (validated failed : List String) (cur : VObs) : List VObs :=
  if wv then
    let cur1 := { cur with validatedArt := some (validatedContent validated) }
    if wr then
      let cur2 := { cur1 with reportArt := some (reportContent validated failed) }
      [cur1, cur2, { cur2 with status := VStatus.done }]
    else [cur1, { cur1 with status := VStatus.error }]
  else [{ cur with status := VStatus.error }]

/-- Observations produced by the `for url in urls` loop of `run_validation`
from iteration `i` on: the cancellation check before each URL, then the
three separate counter assignments (`completed += 1`, `valid = ...`,
`failed = ...`), and finally the write-back phase. -/
def workerSteps (cancelFrom : Option Nat) (wv wr : Bool) :
    List ProbeItem → Nat → List String → List String → VObs → List VObs
  | [], _, validated, failed, cur => finishSteps wv wr validated failed cur
  | (url, oc) :: rest, i, validated, failed, cur =>
    if cancelHit cancelFrom i then [{ cur with status := VStatus.cancelled }]
    else
      let validated' := match oc with | some u => validated ++ [u] | none => validated
      let failed' := match oc with | some _ => failed | none => failed ++ [url]
      let cur1 := { cur with completed := cur.completed + 1 }
      let cur2 := { cur1 with valid := validated'.length }
      let cur3 := { cur2 with failed := failed'.length }
      cur1 :: cur2 :: cur3 :: workerSteps cancelFrom wv wr rest (i + 1) validated' failed' cur3

/-- Shared state right after `start_validation`: status `"running"`,
`total = len(urls)`, all other counters zero, artifacts untouched. -/
def vinit (items : List ProbeItem) : VObs :=
  ⟨VStatus.running, items.length, 0, 0, 0, none, none⟩

/-- Every shared-state observation of one validation run, in order. -/
def runTrace (cancelFrom : Option Nat) (wv wr : Bool) (items : List ProbeItem) : List VObs :=
  vinit items :: workerSteps cancelFrom wv wr items 0 [] [] (vinit items)

/-- The frozen final state of a validation run. -/
def runFinal (cancelFrom : Option Nat) (wv wr : Bool) (items : List ProbeItem) : VObs :=
  (runTrace cancelFrom wv wr items).getLastD (vinit items)

/-- The valid results a complete run collects (final URLs, probe order). -/
def okUrls (items : List ProbeItem) : List String :=
  items.filterMap (fun it => it.2)

/-- The failed results a complete run collects (original URLs, probe order). -/
def failedUrls (items : List ProbeItem) : List String :=
  items.filterMap (fun it => match it.2 with | none => some it.1 | some _ => none)

/-- Counter ordering between two observations. -/
def obsLe (a b : VObs) : Prop :=
  a.completed ≤ b.completed ∧ a.valid ≤ b.valid ∧ a.failed ≤ b.failed

/-!
## Session state machine

`AppState` is embedded with the fields the screen handlers read and write
(threads, the rich console and the validation counters — modelled above —
are left out).  `read_key` is a terminal decoder; its post-decode events
are the `Key` type (`read_key` lowercases plain characters before the
handlers see them).  `read_text_input` and `load_search_specs` perform
terminal/file I/O and enter the handlers as oracle arguments.
-/

/-- The `Screen` enum. -/
inductive ScreenT where
  | main_menu | profile_select | open_settings | opening | validating
  | fetching | ai_prompt_keywords | ai_prompt_locations | ai_prompt_companies
  | ai_prompt_display | quit
deriving DecidableEq, Repr

/-- A decoded key event as returned by `read_key`. -/
inductive Key where
  | enter | esc | up | down | left | right | ch (c : Char)
deriving DecidableEq, Repr

/-- A profile as the handlers see it: its URL list and whether a
`search_specs.json` is attached. -/
structure ProfileM where
  name : String
  urls : List String
  has_search_specs : Bool
deriving DecidableEq, Repr

/-- One entry of the `"sources"` list in `search_specs.json` (the two fields
`init_ai_prompt_builder` reads; a missing field is the empty list). -/
structure SpecSource where
  keywords : List String
  locations : List String
deriving DecidableEq, Repr

/-- Parsed `search_specs.json` as returned by `load_search_specs`. -/
structure SearchSpecs where
  sources : List SpecSource
deriving DecidableEq, Repr

/-- The mutable `AppState` record (screen-machine fields). -/
structure AppSt where
  screen : ScreenT
  prev_screen : ScreenT
  profiles : List ProfileM
  profile_idx : Nat
  selection_idx : Nat
  message : String
  ai_prompt : String
  ai_keywords : List String
  ai_locations : List String
  ai_companies : List String
  ai_company_selected : List Bool
  ai_company_batch_idx : Nat
  ai_input_buffer : String
deriving DecidableEq, Repr

/-- The `current_profile` property. -/
def currentProfile (st : AppSt) : Option ProfileM :=
  if st.profiles = [] then none else st.profiles.get? st.profile_idx

/-- `DEFAULT_COMPANIES` from jobflare. -/
def DEFAULT_COMPANIES : List String :=
  ["Anduril", "Palantir", "CrowdStrike", "Palo Alto Networks", "Fortinet",
   "Splunk", "Elastic", "Cloudflare", "Zscaler", "SentinelOne",
   "Lockheed Martin", "Northrop Grumman", "Raytheon (RTX)", "Boeing", "BAE Systems",
   "L3Harris", "General Dynamics", "Leidos", "SAIC", "Booz Allen",
   "MITRE", "Peraton", "ManTech", "Parsons", "CACI",
   "Microsoft", "Google", "Amazon (AWS)", "Apple", "Meta",
   "Netflix", "Cisco", "IBM", "Oracle", "VMware",
   "BlueHalo", "Bluestaq", "True Anomaly", "Sierra Space", "Auria Space",
   "Delta Sands", "Pryon", "Trellix", "Mandiant", "Recorded Future"]

/-- `COMPANY_BATCH_SIZE` from jobflare. -/
def COMPANY_BATCH_SIZE : Nat := 10

/-- Append the elements of `new` that are not already present (the
`if x not in xs: xs.append(x)` idiom). -/
def addNew (xs new : List String) : List String :=
  new.foldl (fun acc x => if x ∈ acc then acc else acc ++ [x]) xs

/-- `init_ai_prompt_builder`: reset the AI-prompt scratch fields, then
pre-populate keywords/locations from `search_specs` when present.
(`specs` is the value `load_search_specs` returned.)  Note that
`selection_idx` is not touched. -/
def init_ai_prompt_builder (specs : Option SearchSpecs) (st : AppSt) : AppSt :=
  let st := { st with
    ai_keywords := [], ai_locations := [],
    ai_companies := DEFAULT_COMPANIES,
    ai_company_selected := List.replicate DEFAULT_COMPANIES.length false,
    ai_company_batch_idx := 0, ai_input_buffer := "" }
  match specs with
  | none => st
  | some sp =>
    sp.sources.foldl
      (fun s src =>
        { s with ai_keywords := addNew s.ai_keywords src.keywords,
                 ai_locations := addNew s.ai_locations src.locations })
      st

/-- The comma-splitting/stripping add loop of the keyword and location
handlers: `for x in text.split(","): x = x.strip(); if x and x not in xs:
xs.append(x)`. -/
def addParts (xs : List String) (text : String) : List String :=
  (text.split (fun c => c = ',')).foldl
    (fun acc raw =>
      let p := pyStrip raw
      if p ≠ "" ∧ p ∉ acc then acc ++ [p] else acc)
    xs

/-- `handle_ai_locations`.  `textInput` is the `(text, cancelled)` pair an
`read_text_input` call would return on key `a`. -/
def handle_ai_locations (textInput : String × Bool) (st : AppSt) (key : Key) : AppSt :=
  if key = Key.ch 'a' then
    if textInput.2 = false ∧ textInput.1 ≠ "" then
      { st with ai_locations := addParts st.ai_locations textInput.1 }
    else st
  else if key = Key.ch 'c' then { st with ai_locations := [] }
  else if key = Key.ch 'n' then { st with screen := ScreenT.ai_prompt_companies }
  else if key = Key.ch 'b' ∨ key = Key.esc then { st with screen := ScreenT.ai_prompt_keywords }
  else st

/-- `handle_main_menu`.  `specs` is the oracle for the `load_search_specs`
call `init_ai_prompt_builder` makes on key `g`; on key `v` the spawned
`run_validation` worker is the trace model above. -/
def handle_main_menu (specs : Option SearchSpecs) (st : AppSt) (key : Key) : AppSt :=
  if key = Key.ch 'o' then
    match currentProfile st with
    | none => { st with message := "No URLs to open" }
    | some p =>
      if p.urls = [] then { st with message := "No URLs to open" }
      else { st with prev_screen := ScreenT.main_menu, screen := ScreenT.open_settings }
  else if key = Key.ch 'f' then
    match currentProfile st with
    | none => { st with message := "No profile selected" }
    | some p =>
      if p.has_search_specs = false then { st with message := "No search_specs.json in profile" }
      else { st with prev_screen := ScreenT.main_menu, screen := ScreenT.fetching }
  else if key = Key.ch 'g' then
    match currentProfile st with
    | none => { st with message := "No profile selected" }
    | some _ =>
      { init_ai_prompt_builder specs st with
          prev_screen := ScreenT.main_menu, screen := ScreenT.ai_prompt_keywords }
  else if key = Key.ch 'v' then
    match currentProfile st with
    | none => { st with message := "No URLs to validate" }
    | some p =>
      if p.urls = [] then { st with message := "No URLs to validate" }
      else { st with prev_screen := ScreenT.main_menu, screen := ScreenT.validating }
  else if key = Key.ch 'p' then
    if st.profiles = [] then { st with message := "No profiles available" }
    else { st with selection_idx := st.profile_idx,
                   prev_screen := ScreenT.main_menu, screen := ScreenT.profile_select }
  else if key = Key.ch 'q' then { st with screen := ScreenT.quit }
  else st

/-- `generate_ai_prompt`: the deterministic prompt text build. -/
def generate_ai_prompt (keywords locations companies : List String) : String :=
  let prompt_parts : List String :=
    ["# Job URL Search Request",
     "",
     "Find job posting URLs matching my criteria. Return ONLY valid, working URLs to active job listings.",
     "",
     "## Search Criteria",
     ""]
  let prompt_parts :=
    if keywords ≠ [] then
      prompt_parts ++ ["**Keywords:** " ++ String.intercalate (", ") keywords]
    else prompt_parts
  let prompt_parts :=
    if locations ≠ [] then
      prompt_parts ++ ["**Locations:** " ++ String.intercalate (", ") locations]
    else prompt_parts
  let prompt_parts :=
    if companies ≠ [] then
      prompt_parts ++ ["**Target Companies:** " ++ String.intercalate (", ") companies]
    else prompt_parts
  let prompt_parts := prompt_parts ++
    ["",
     "## Instructions",
     "",
     "1. Search for job postings matching the criteria above",
     "2. Find direct links to individual job postings (not search results pages)",
     "3. Prioritize jobs from company career pages, Greenhouse, Lever, Workday, and iCIMS",
     "4. Verify each URL points to an active job posting",
     "",
     "## Output Format",
     "",
     "Return URLs with work-type tags. Use this EXACT format:",
     "",
     "```",
     "[REMOTE] https://example.com/jobs/12345",
     "[HYBRID] https://company.greenhouse.io/jobs/67890",
     "[ON-SITE: Denver, CO] https://jobs.lever.co/company/abcdef",
     "[REMOTE] https://careers.company.com/jobs/99999",
     "```",
     "",
     "## Tag Definitions",
     "",
     "- `[REMOTE]` - Fully remote position",
     "- `[HYBRID]` - Mix of remote and on-site",
     "- `[ON-SITE: Location]` - Must work at specific location",
     "- If work type is unclear, use `[UNKNOWN]`",
     "",
     "## Requirements",
     "",
     "- Return 20-50 unique job URLs",
     "- Each URL must be a direct link to a specific job posting",
     "- URLs must start with https:// or http://",
     "- No duplicate URLs",
     "- No expired or closed job postings",
     "- No general career page URLs (must be specific job listings)",
     "",
     "## Example Valid URLs",
     "",
     "- `https://boards.greenhouse.io/company/jobs/123456`",
     "- `https://jobs.lever.co/company/abc-def-123`",
     "- `https://company.wd5.myworkdayjobs.com/careers/job/Location/Title_ID`",
     "- `https://careers.company.com/jobs/12345`",
     "",
     "Provide the tagged job URLs now, one per line."]
  pyJoinNL prompt_parts

/-- Number keys `1`-`9` toggle entries 1-9 of the batch and `0` entry 10. -/
def digitToNum (c : Char) : Nat :=
  if c.toNat - '0'.toNat = 0 then 10 else c.toNat - '0'.toNat

/-- The `key.isdigit()` test of `handle_ai_companies`. -/
def isDigitKey : Key → Bool
  | Key.ch c => c.isDigit
  | _ => false

/-- The `num = int(key); if num == 0: num = 10` step of `handle_ai_companies`. -/
def digitKeyNum : Key → Nat
  | Key.ch c => digitToNum c
  | _ => 0

/-- `handle_ai_companies`: company-selection screen input (navigation,
toggling, select/clear all, prompt generation, back). -/
def handle_ai_companies (st : AppSt) (key : Key) : AppSt :=
  let total := st.ai_companies.length
  let start := st.ai_company_batch_idx * COMPANY_BATCH_SIZE
  let endIdx := min (start + COMPANY_BATCH_SIZE) total
  let total_batches := (total + COMPANY_BATCH_SIZE - 1) / COMPANY_BATCH_SIZE
  if key = Key.ch 'j' ∨ key = Key.down then
    if st.selection_idx < endIdx - 1 then { st with selection_idx := st.selection_idx + 1 }
    else if st.ai_company_batch_idx < total_batches - 1 then
      { st with ai_company_batch_idx := st.ai_company_batch_idx + 1,
                selection_idx := (st.ai_company_batch_idx + 1) * COMPANY_BATCH_SIZE }
    else st
  else if key = Key.ch 'k' ∨ key = Key.up then
    if st.selection_idx > start then { st with selection_idx := st.selection_idx - 1 }
    else if st.ai_company_batch_idx > 0 then
      { st with ai_company_batch_idx := st.ai_company_batch_idx - 1,
                selection_idx :=
                  min ((st.ai_company_batch_idx - 1) * COMPANY_BATCH_SIZE
                        + COMPANY_BATCH_SIZE - 1) (total - 1) }
    else st
  else if key = Key.ch '<' ∨ key = Key.ch ',' ∨ key = Key.left then
    if st.ai_company_batch_idx > 0 then
      { st with ai_company_batch_idx := st.ai_company_batch_idx - 1,
                selection_idx := (st.ai_company_batch_idx - 1) * COMPANY_BATCH_SIZE }
    else st
  else if key = Key.ch '>' ∨ key = Key.ch '.' ∨ key = Key.right then
    if st.ai_company_batch_idx < total_batches - 1 then
      { st with ai_company_batch_idx := st.ai_company_batch_idx + 1,
                selection_idx := (st.ai_company_batch_idx + 1) * COMPANY_BATCH_SIZE }
    else st
  else if key = Key.ch ' ' then
    if start ≤ st.selection_idx ∧ st.selection_idx < endIdx then
      let toggled := !(st.ai_company_selected.getD st.selection_idx false)
      { st with ai_company_selected := st.ai_company_selected.set st.selection_idx toggled }
    else st
  else if isDigitKey key then
    let num := digitKeyNum key
    let idx := start + num - 1
    if idx < endIdx then
      let toggled := !(st.ai_company_selected.getD idx false)
      { st with ai_company_selected := st.ai_company_selected.set idx toggled }
    else st
  else if key = Key.ch 'a' then
    { st with ai_company_selected := List.replicate total true }
  else if key = Key.ch 'c' then
    { st with ai_company_selected := List.replicate total false }
  else if key = Key.ch 'n' then
    let selected_companies :=
      (List.range total).filterMap
        (fun i => if st.ai_company_selected.getD i false then st.ai_companies.get? i else none)
    { st with ai_prompt := generate_ai_prompt st.ai_keywords st.ai_locations selected_companies,
              screen := ScreenT.ai_prompt_display }
  else if key = Key.ch 'b' ∨ key = Key.esc then { st with screen := ScreenT.ai_prompt_locations }
  else st

/-- Apply a sequence of key events to the company-selection handler. -/
def applyCompanyKeys (st : AppSt) (keys : List Key) : AppSt :=
  keys.foldl handle_ai_companies st

/-!
## Tab-opening configuration input (`read_number` / `handle_open_settings`)

`read_number` consumes decoded key events; its result is `-1` for
cancel (`b`/escape), else the entered number clamped by
`min(max(1, val), max_val)`, or the default for an empty buffer.  The
model threads one key stream through both prompts and returns the
unconsumed remainder; an exhausted stream (`none`) corresponds to the
real function still blocking on input.  (In the source the buffer can
only ever hold digit characters, so the `int(buffer)` parse of a
non-empty buffer cannot fail; `decDigits` is that parse.) -/

/-- Decimal value of a digit buffer (`int(buffer)` for digit-only input). -/
def decDigits (buffer : List Char) : Nat :=
  buffer.foldl (fun n c => n * 10 + (c.toNat - '0'.toNat)) 0

/-- The key loop of `read_number`, with the current buffer. -/
def read_number_go (default max_val : Int) :
    List Char → List Key → Option Int × List Key
  | _, [] => (none, [])
  | buffer, k :: rest =>
    match k with
    | Key.enter =>
        if buffer = [] then (some default, rest)
        else (some (min (max 1 (decDigits buffer : Int)) max_val), rest)
    | Key.esc => (some (-1), rest)
    | Key.ch c =>
        if c = 'b' then (some (-1), rest)
        else if c.isDigit then read_number_go default max_val (buffer ++ [c]) rest
        else if c = '\x7f' then read_number_go default max_val buffer.dropLast rest
        else read_number_go default max_val buffer rest
    | _ => read_number_go default max_val buffer rest

/-- `read_number(prompt, default, max_val)` (the prompt is display only). -/
def read_number (default max_val : Int) (keys : List Key) : Option Int × List Key :=
  read_number_go default max_val [] keys

/-- Result of `handle_open_settings`: back to the main menu, blocked on
input, or proceeding to the opening screen with the settings used. -/
inductive OpenOutcome where
  | cancelled
  | incomplete
  | proceed (tab_limit : Int) (delay_ms : Int)
deriving DecidableEq, Repr

/-- `handle_open_settings` for a profile with `max_urls` URLs: read the tab
limit (default `min(DEFAULT_TAB_LIMIT, max_urls)`), then the delay in
milliseconds (default `int(DEFAULT_DELAY * 1000) = 150`, maximum `5000`).
`state.delay` is stored in seconds (`delay_raw / 1000.0`); the model keeps
the millisecond value. -/
def handle_open_settings (max_urls : Nat) (keys : List Key) : OpenOutcome :=
  match read_number (min 10 (max_urls : Int)) (max_urls : Int) keys with
  | (none, _) => OpenOutcome.incomplete
  | (some t, rest) =>
    if t = -1 then OpenOutcome.cancelled
    else
      match read_number 150 5000 rest with
      | (none, _) => OpenOutcome.incomplete
      | (some d, _) =>
        if d = -1 then OpenOutcome.cancelled
        else OpenOutcome.proceed t d

/-!
## Remaining definitions used by the theorems
-/

/-- Well-formedness of the cursor/batch state of the company-selection screen:
a nonempty candidate list, a batch index below the number of batches, and
a cursor inside the displayed batch. -/
def companiesInv (st : AppSt) : Prop :=
  0 < st.ai_companies.length ∧
  st.ai_company_batch_idx <
    (st.ai_companies.length + COMPANY_BATCH_SIZE - 1) / COMPANY_BATCH_SIZE ∧
  st.ai_company_batch_idx * COMPANY_BATCH_SIZE ≤ st.selection_idx ∧
  st.selection_idx <
    min (st.ai_company_batch_idx * COMPANY_BATCH_SIZE + COMPANY_BATCH_SIZE)
      st.ai_companies.length

instance (st : AppSt) : Decidable (companiesInv st) := by
  unfold companiesInv
  infer_instance

/-- A reachable locations-screen state with a stale selection cursor: in a
session with one profile, visit the company screen, navigate the cursor to
index 13 (batch 1), go back to the main menu, press `g` (which resets the
batch index but not the cursor) and advance to the locations screen. -/
def c8_stale : AppSt :=
  { screen := ScreenT.ai_prompt_locations, prev_screen := ScreenT.main_menu,
    profiles := [⟨"default", ["https://a.com/job/1"], false⟩], profile_idx := 0,
    selection_idx := 13, message := "", ai_prompt := "",
    ai_keywords := [], ai_locations := [],
    ai_companies := DEFAULT_COMPANIES,
    ai_company_selected := List.replicate DEFAULT_COMPANIES.length false,
    ai_company_batch_idx := 0, ai_input_buffer := "" }

/-- The company-selection screen state entered from a fresh session
(`selection_idx` still at its dataclass default 0). -/
def freshCompaniesEntry : AppSt :=
  { screen := ScreenT.ai_prompt_companies, prev_screen := ScreenT.main_menu,
    profiles := [⟨"default", ["https://a.com/job/1"], false⟩], profile_idx := 0,
    selection_idx := 0, message := "", ai_prompt := "",
    ai_keywords := [], ai_locations := [],
    ai_companies := DEFAULT_COMPANIES,
    ai_company_selected := List.replicate DEFAULT_COMPANIES.length false,
    ai_company_batch_idx := 0, ai_input_buffer := "" }

/-!
## List and string lemmas
-/

theorem isLineBreak_isSpace {c : Char} (h : isLineBreak c = true) : pyIsSpace c = true := by
  have h' := of_decide_eq_true h
  fin_cases h' <;> rfl

theorem dropWhile_dropWhile (p : α → Bool) (l : List α) :
    (l.dropWhile p).dropWhile p = l.dropWhile p := by
  induction l with
  | nil => rfl
  | cons a t ih =>
    by_cases h : p a
    · simp only [List.dropWhile_cons, if_pos h]; exact ih
    · simp only [List.dropWhile_cons, if_neg h]

theorem dropWhile_head_false (p : α → Bool) (l : List α) {a : α} {t : List α}
    (h : l.dropWhile p = a :: t) : p a = false := by
  induction l with
  | nil => simp [List.dropWhile] at h
  | cons x xs ih =>
    rw [List.dropWhile_cons] at h
    by_cases hx : p x
    · rw [if_pos hx] at h; exact ih h
    · rw [if_neg hx] at h
      injection h with h1 _
      subst h1
      simpa using hx

theorem head_false_of_dropWhile_eq_self (p : α → Bool) {a : α} {t : List α}
    (h : List.dropWhile p (a :: t) = a :: t) : p a = false := by
  by_cases hx : p a
  · rw [List.dropWhile_cons, if_pos hx] at h
    exact dropWhile_head_false p t h
  · simpa using hx

theorem exists_append_dropWhile (p : α → Bool) (l : List α) :
    ∃ u, l = u ++ l.dropWhile p := by
  induction l with
  | nil => exact ⟨[], rfl⟩
  | cons a t ih =>
    by_cases h : p a
    · obtain ⟨u, hu⟩ := ih
      refine ⟨a :: u, ?_⟩
      simp only [List.dropWhile_cons, if_pos h, List.cons_append]
      exact congrArg (a :: ·) hu
    · exact ⟨[], by simp [List.dropWhile_cons, if_neg h]⟩

theorem pyStripL_idem (l : List Char) : pyStripL (pyStripL l) = pyStripL l := by
  have hX : List.dropWhile pyIsSpace (List.dropWhile pyIsSpace l)
      = List.dropWhile pyIsSpace l := dropWhile_dropWhile pyIsSpace l
  have h1 : List.dropWhile pyIsSpace (pyStripL l) = pyStripL l := by
    obtain ⟨u, hu⟩ := exists_append_dropWhile pyIsSpace (List.dropWhile pyIsSpace l).reverse
    have hX2 : List.dropWhile pyIsSpace l = pyStripL l ++ u.reverse := by
      have h' := congrArg List.reverse hu
      rw [List.reverse_reverse, List.reverse_append] at h'
      exact h'
    cases htcase : pyStripL l with
    | nil => simp
    | cons a t' =>
      rw [htcase, List.cons_append] at hX2
      rw [hX2] at hX
      have hpa := head_false_of_dropWhile_eq_self pyIsSpace hX
      rw [List.dropWhile_cons, if_neg (by simp [hpa])]
  have h2 : List.dropWhile pyIsSpace (pyStripL l).reverse = (pyStripL l).reverse := by
    have e : (pyStripL l).reverse
        = (List.dropWhile pyIsSpace l).reverse.dropWhile pyIsSpace := by
      show (((List.dropWhile pyIsSpace l).reverse.dropWhile pyIsSpace).reverse).reverse = _
      rw [List.reverse_reverse]
    rw [e]
    exact dropWhile_dropWhile ..
  show ((List.dropWhile pyIsSpace (pyStripL l)).reverse.dropWhile pyIsSpace).reverse = pyStripL l
  rw [h1, h2, List.reverse_reverse]

theorem pyStripL_eq_self {l : List Char}
    (h1 : ∀ c, l.head? = some c → pyIsSpace c = false)
    (h2 : ∀ c, l.getLast? = some c → pyIsSpace c = false) :
    pyStripL l = l := by
  have hd : List.dropWhile pyIsSpace l = l := by
    cases l with
    | nil => rfl
    | cons a t => rw [List.dropWhile_cons, if_neg (by simp [h1 a rfl])]
  have hr : List.dropWhile pyIsSpace l.reverse = l.reverse := by
    cases hrev : l.reverse with
    | nil => rfl
    | cons a t =>
      have ha : l.getLast? = some a := by
        rw [← List.head?_reverse, hrev]; rfl
      rw [List.dropWhile_cons, if_neg (by simp [h2 a ha])]
  show ((List.dropWhile pyIsSpace l).reverse.dropWhile pyIsSpace).reverse = l
  rw [hd, hr, List.reverse_reverse]

theorem splitlinesAux_line (xs : List Char) (h : ∀ c ∈ xs, isLineBreak c = false) :
    ∀ (rest acc : List Char),
      splitlinesAux (xs ++ '\n' :: rest) acc = (acc.reverse ++ xs) :: splitlinesAux rest [] := by
  induction xs with
  | nil =>
    intro rest acc
    have hn : isLineBreak '\n' = true := rfl
    cases rest with
    | nil => simp [splitlinesAux, hn]
    | cons r rs => simp [splitlinesAux, hn]
  | cons x xs' ih =>
    intro rest acc
    have hx : isLineBreak x = false := h x (by simp)
    have hxr : x ≠ '\r' := by
      intro hc; rw [hc] at hx; exact absurd hx (by simp [isLineBreak])
    have hxs' : ∀ c ∈ xs', isLineBreak c = false := fun c hc => h c (by simp [hc])
    cases hsplit : xs' ++ '\n' :: rest with
    | nil => exact absurd hsplit (by simp)
    | cons y ys =>
      show splitlinesAux (x :: (xs' ++ '\n' :: rest)) acc = _
      rw [hsplit]
      simp only [splitlinesAux]
      rw [if_neg (by intro hc; exact hxr hc.1), if_neg (by simp [hx]), ← hsplit, ih hxs' rest (x :: acc)]
      simp

theorem splitlinesAux_joinNL (l : List (List Char)) (hne : l ≠ [])
    (hc : ∀ s ∈ l, ∀ c ∈ s, isLineBreak c = false) :
    splitlinesAux (joinNLL l ++ ['\n']) [] = l := by
  induction l with
  | nil => exact absurd rfl hne
  | cons x xs ih =>
    have hx : ∀ c ∈ x, isLineBreak c = false := hc x (by simp)
    cases xs with
    | nil =>
      show splitlinesAux (x ++ '\n' :: []) [] = [x]
      rw [splitlinesAux_line x hx [] []]
      simp [splitlinesAux]
    | cons y ys =>
      have hxs : y :: ys ≠ [] := by simp
      have hcs : ∀ s ∈ y :: ys, ∀ c ∈ s, isLineBreak c = false :=
        fun s hs => hc s (by simp [hs])
      show splitlinesAux ((x ++ '\n' :: joinNLL (y :: ys)) ++ ['\n']) [] = _
      rw [List.append_assoc, List.cons_append, splitlinesAux_line x hx _ []]
      rw [ih hxs hcs]
      simp

theorem pySplitlines_joinNL (l : List String) (hne : l ≠ [])
    (hc : ∀ s ∈ l, ∀ c ∈ s.data, isLineBreak c = false) :
    pySplitlines (pyJoinNL l ++ "\n") = l := by
  have hdata : (pyJoinNL l ++ ("\n" : String)).data = joinNLL (l.map String.data) ++ ['\n'] := by
    rw [String.data_append]; rfl
  have hmain := splitlinesAux_joinNL (l.map String.data) (by simpa using hne)
    (by
      intro s hs c hcmem
      simp only [List.mem_map] at hs
      obtain ⟨s', hs', rfl⟩ := hs
      exact hc s' hs' c hcmem)
  show (splitlinesAux (pyJoinNL l ++ "\n").data []).map (fun cs => (⟨cs⟩ : String)) = l
  rw [hdata, hmain, List.map_map]
  have hid : (fun cs => (⟨cs⟩ : String)) ∘ String.data = id := funext (fun s => rfl)
  rw [hid, List.map_id]

theorem digitChar_star (n : Nat) (h : ¬ n < 16) : Nat.digitChar n = '*' := by
  unfold Nat.digitChar
  repeat rw [if_neg (by omega)]

theorem digitChar_not_space (n : Nat) :
    pyIsSpace (Nat.digitChar n) = false ∧ isLineBreak (Nat.digitChar n) = false := by
  by_cases h : n < 16
  · interval_cases n <;> exact ⟨by decide, by decide⟩
  · rw [digitChar_star n h]; exact ⟨by decide, by decide⟩

theorem toDigitsCore_chars (b : Nat) :
    ∀ (fuel n : Nat) (ds : List Char),
      (∀ c ∈ ds, pyIsSpace c = false ∧ isLineBreak c = false) →
      ∀ c ∈ Nat.toDigitsCore b fuel n ds, pyIsSpace c = false ∧ isLineBreak c = false := by
  intro fuel
  induction fuel with
  | zero =>
    intro n ds hds c hcm
    exact hds c (by simpa [Nat.toDigitsCore] using hcm)
  | succ f ih =>
    intro n ds hds c hcm
    by_cases hnb : n / b = 0
    · simp only [Nat.toDigitsCore, hnb, if_pos] at hcm
      rcases List.mem_cons.mp hcm with rfl | hcm'
      · exact digitChar_not_space _
      · exact hds c hcm'
    · simp only [Nat.toDigitsCore, hnb, if_neg, if_false] at hcm
      refine ih (n / b) (Nat.digitChar (n % b) :: ds) ?_ c hcm
      intro c' hc'
      rcases List.mem_cons.mp hc' with rfl | hc''
      · exact digitChar_not_space _
      · exact hds c' hc''

theorem repr_chars (n : Nat) :
    ∀ c ∈ (Nat.repr n).data, pyIsSpace c = false ∧ isLineBreak c = false := by
  intro c hcm
  have hdata : (Nat.repr n).data = Nat.toDigitsCore 10 (n + 1) n [] := rfl
  rw [hdata] at hcm
  exact toDigitsCore_chars 10 (n + 1) n [] (by intro c' hc'; simp at hc') c hcm

theorem joinNLL_head (a : Char) (t : List Char) (xs : List (List Char)) :
    (joinNLL ((a :: t) :: xs)).head? = some a := by
  cases xs with
  | nil => rfl
  | cons y ys => rfl

theorem joinNLL_getLast (l : List (List Char)) (x : List Char) (hx : x ≠ []) :
    (joinNLL (l ++ [x])).getLast? = x.getLast? := by
  induction l with
  | nil => rfl
  | cons a l' ih =>
    cases hll : l' ++ [x] with
    | nil => exact absurd hll (by simp)
    | cons y ys =>
      show (joinNLL (a :: (l' ++ [x]))).getLast? = x.getLast?
      rw [hll]
      show (a ++ '\n' :: joinNLL (y :: ys)).getLast? = x.getLast?
      rw [List.getLast?_append_of_ne_nil a (by simp)]
      have hJ : (joinNLL (l' ++ [x])).getLast? = x.getLast? := ih
      rw [hll] at hJ
      have hJne : joinNLL (y :: ys) ≠ [] := by
        intro hnil
        rw [hnil] at hJ
        have : x.getLast?.isSome := List.getLast?_isSome.mpr hx
        rw [← hJ] at this
        simp at this
      cases hJc : joinNLL (y :: ys) with
      | nil => exact absurd hJc hJne
      | cons j js =>
        rw [List.getLast?_cons_cons, ← hJc]
        exact hJ

theorem pyStrip_noop (s : String)
    (h1 : ∀ c, s.data.head? = some c → pyIsSpace c = false)
    (h2 : ∀ c, s.data.getLast? = some c → pyIsSpace c = false) :
    pyStrip s = s := by
  show (⟨pyStripL s.data⟩ : String) = s
  rw [pyStripL_eq_self h1 h2]

theorem getLast?_mem_list {l : List α} {a : α} (h : l.getLast? = some a) : a ∈ l := by
  obtain ⟨hne, rfl⟩ := List.mem_getLast?_eq_getLast (l := l) (x := a) (by simp [h])
  exact List.getLast_mem hne

theorem not_linebreak_of_not_space {c : Char} (h : pyIsSpace c = false) :
    isLineBreak c = false := by
  cases hl : isLineBreak c
  · rfl
  · rw [isLineBreak_isSpace hl] at h
    exact absurd h (by decide)

theorem data_ne_nil_of_ne_empty {s : String} (h : s ≠ "") : s.data ≠ [] := by
  intro hd
  exact h (congrArg String.mk hd)

theorem validatedContent_splitlines (v : List String) (hv : v ≠ [])
    (hc : ∀ u ∈ v, ∀ c ∈ u.data, pyIsSpace c = false) :
    pySplitlines (validatedContent v) = v := by
  unfold validatedContent
  exact pySplitlines_joinNL v hv
    (fun s hs c hcm => not_linebreak_of_not_space (hc s hs c hcm))

theorem reportJoin_strip (validated failed : List String)
    (hf : ∀ u ∈ failed, u ≠ "" ∧ ∀ c ∈ u.data, pyIsSpace c = false) :
    pyStrip (pyJoinNL (reportLines validated failed))
      = pyJoinNL (reportLines validated failed) := by
  have hvdata : ("Validated: " ++ Nat.repr validated.length).data
      = 'V' :: (("alidated: ").data ++ (Nat.repr validated.length).data) := by
    rw [String.data_append]
    rfl
  apply pyStrip_noop
  · intro c hc
    have hhead : (pyJoinNL (reportLines validated failed)).data.head? = some 'V' := by
      show (joinNLL ((reportLines validated failed).map String.data)).head? = some 'V'
      have hmap : (reportLines validated failed).map String.data
          = ('V' :: (("alidated: ").data ++ (Nat.repr validated.length).data))
            :: (("Failed: " ++ Nat.repr failed.length) :: "" :: "Failed URLs:" :: failed).map
                String.data := by
        simp [reportLines, hvdata]
      rw [hmap, joinNLL_head]
    rw [hhead] at hc
    injection hc with hc
    subst hc
    rfl
  · intro c hc
    rcases List.eq_nil_or_concat failed with hfe | ⟨f', u, hfu⟩
    · subst hfe
      have hmap : (reportLines validated []).map String.data
          = [("Validated: " ++ Nat.repr validated.length).data,
             ("Failed: " ++ Nat.repr (List.length ([] : List String))).data,
             ("" : String).data] ++ [("Failed URLs:").data] := by
        simp [reportLines]
      have hlast : (pyJoinNL (reportLines validated [])).data.getLast? = some ':' := by
        show (joinNLL ((reportLines validated []).map String.data)).getLast? = some ':'
        rw [hmap, joinNLL_getLast _ _ (by decide)]
        rfl
      rw [hlast] at hc
      injection hc with hc
      subst hc
      rfl
    · have hfu' : failed = f' ++ [u] := by simpa [List.concat_eq_append] using hfu
      subst hfu'
      have hu := hf u (by simp)
      have hmap : (reportLines validated (f' ++ [u])).map String.data
          = ((["Validated: " ++ Nat.repr validated.length,
               "Failed: " ++ Nat.repr (f' ++ [u]).length,
               "", "Failed URLs:"] ++ f').map String.data) ++ [u.data] := by
        simp [reportLines]
      have hlast : (pyJoinNL (reportLines validated (f' ++ [u]))).data.getLast?
          = u.data.getLast? := by
        show (joinNLL ((reportLines validated (f' ++ [u])).map String.data)).getLast? = _
        rw [hmap, joinNLL_getLast _ _ (data_ne_nil_of_ne_empty hu.1)]
      rw [hlast] at hc
      exact hu.2 c (getLast?_mem_list hc)

theorem reportContent_splitlines (validated failed : List String)
    (hf : ∀ u ∈ failed, u ≠ "" ∧ ∀ c ∈ u.data, pyIsSpace c = false) :
    pySplitlines (reportContent validated failed) = reportLines validated failed := by
  unfold reportContent
  rw [reportJoin_strip validated failed hf]
  apply pySplitlines_joinNL
  · simp [reportLines]
  · intro s hs c hcm
    have hOfLit : ∀ t : String, t = "Validated: " ∨ t = "alidated: " → True := fun _ _ => trivial
    clear hOfLit
    simp only [reportLines, List.mem_append, List.mem_cons, List.not_mem_nil, or_false] at hs
    rcases hs with ((rfl | rfl | rfl | rfl) | hsf)
    · rw [String.data_append] at hcm
      rcases List.mem_append.mp hcm with hlit | hrep
      · have hall : ∀ x ∈ ("Validated: ").data, isLineBreak x = false := by decide
        exact hall c hlit
      · exact (repr_chars validated.length c hrep).2
    · rw [String.data_append] at hcm
      rcases List.mem_append.mp hcm with hlit | hrep
      · have hall : ∀ x ∈ ("Failed: ").data, isLineBreak x = false := by decide
        exact hall c hlit
      · exact (repr_chars failed.length c hrep).2
    · simp at hcm
    · have hall : ∀ x ∈ ("Failed URLs:").data, isLineBreak x = false := by decide
      exact hall c hcm
    · exact not_linebreak_of_not_space ((hf s hsf).2 c hcm)

/-!
## Validation engine lemmas
-/

theorem okUrls_cons_some (url u : String) (rest : List ProbeItem) :
    okUrls ((url, some u) :: rest) = u :: okUrls rest := rfl

theorem okUrls_cons_none (url : String) (rest : List ProbeItem) :
    okUrls ((url, none) :: rest) = okUrls rest := rfl

theorem failedUrls_cons_some (url u : String) (rest : List ProbeItem) :
    failedUrls ((url, some u) :: rest) = failedUrls rest := rfl

theorem failedUrls_cons_none (url : String) (rest : List ProbeItem) :
    failedUrls ((url, none) :: rest) = url :: failedUrls rest := rfl

theorem finishSteps_counters (wv wr : Bool) (validated failed : List String) (cur : VObs) :
    ∀ obs ∈ finishSteps wv wr validated failed cur,
      obs.completed = cur.completed ∧ obs.valid = cur.valid ∧
      obs.failed = cur.failed ∧ obs.total = cur.total := by
  intro obs hobs
  unfold finishSteps at hobs
  split_ifs at hobs <;> fin_cases hobs <;> exact ⟨rfl, rfl, rfl, rfl⟩

theorem finishSteps_ne_nil (wv wr : Bool) (validated failed : List String) (cur : VObs) :
    finishSteps wv wr validated failed cur ≠ [] := by
  unfold finishSteps
  split_ifs <;> simp

theorem workerSteps_ne_nil (cancelFrom : Option Nat) (wv wr : Bool)
    (items : List ProbeItem) (i : Nat) (validated failed : List String) (cur : VObs) :
    workerSteps cancelFrom wv wr items i validated failed cur ≠ [] := by
  cases items with
  | nil => intro h; exact finishSteps_ne_nil wv wr validated failed cur h
  | cons it rest =>
    obtain ⟨url, oc⟩ := it
    simp only [workerSteps]
    split_ifs <;> simp

theorem getLast?_cons_of_ne_nil (a : α) {l : List α} (h : l ≠ []) :
    (a :: l).getLast? = l.getLast? := by
  cases l with
  | nil => exact absurd rfl h
  | cons b t => exact List.getLast?_cons_cons ..


theorem workerSteps_bounds (cancelFrom : Option Nat) (wv wr : Bool) :
    ∀ (items : List ProbeItem) (i : Nat) (validated failed : List String) (cur : VObs),
      cur.valid = validated.length → cur.failed = failed.length →
      cur.completed = cur.valid + cur.failed →
      ∀ obs ∈ workerSteps cancelFrom wv wr items i validated failed cur,
        obs.completed ≤ cur.completed + items.length ∧
        obs.valid + obs.failed ≤ obs.completed ∧
        obs.completed ≤ obs.valid + obs.failed + 1 ∧
        obs.total = cur.total := by
  intro items
  induction items with
  | nil =>
    intro i validated failed cur hv hf hc obs hobs
    obtain ⟨h1, h2, h3, h4⟩ := finishSteps_counters wv wr validated failed cur obs hobs
    exact ⟨by omega, by omega, by omega, h4⟩
  | cons it rest ih =>
    intro i validated failed cur hv hf hc obs hobs
    obtain ⟨url, oc⟩ := it
    by_cases hcan : cancelHit cancelFrom i
    · simp only [workerSteps, if_pos hcan] at hobs
      fin_cases hobs
      show cur.completed ≤ cur.completed + (rest.length + 1) ∧
          cur.valid + cur.failed ≤ cur.completed ∧
          cur.completed ≤ cur.valid + cur.failed + 1 ∧ cur.total = cur.total
      exact ⟨by omega, by omega, by omega, rfl⟩
    · simp only [workerSteps, if_neg hcan] at hobs
      cases oc with
      | some u =>
        have hlen : (validated ++ [u]).length = validated.length + 1 := by simp
        rcases List.mem_cons.mp hobs with rfl | hobs
        · show cur.completed + 1 ≤ cur.completed + (rest.length + 1) ∧
              cur.valid + cur.failed ≤ cur.completed + 1 ∧
              cur.completed + 1 ≤ cur.valid + cur.failed + 1 ∧ cur.total = cur.total
          exact ⟨by omega, by omega, by omega, rfl⟩
        rcases List.mem_cons.mp hobs with rfl | hobs
        · show cur.completed + 1 ≤ cur.completed + (rest.length + 1) ∧
              (validated ++ [u]).length + cur.failed ≤ cur.completed + 1 ∧
              cur.completed + 1 ≤ (validated ++ [u]).length + cur.failed + 1 ∧
              cur.total = cur.total
          exact ⟨by omega, by omega, by omega, rfl⟩
        rcases List.mem_cons.mp hobs with rfl | hobs
        · show cur.completed + 1 ≤ cur.completed + (rest.length + 1) ∧
              (validated ++ [u]).length + failed.length ≤ cur.completed + 1 ∧
              cur.completed + 1 ≤ (validated ++ [u]).length + failed.length + 1 ∧
              cur.total = cur.total
          exact ⟨by omega, by omega, by omega, rfl⟩
        · obtain ⟨g1, g2, g3, g4⟩ := ih (i + 1) (validated ++ [u]) failed _ rfl rfl
            (show cur.completed + 1 = (validated ++ [u]).length + failed.length by omega)
            obs hobs
          have g1' : obs.completed ≤ (cur.completed + 1) + rest.length := g1
          have g4' : obs.total = cur.total := g4
          refine ⟨?_, g2, g3, g4'⟩
          show obs.completed ≤ cur.completed + (rest.length + 1)
          omega
      | none =>
        have hlen : (failed ++ [url]).length = failed.length + 1 := by simp
        rcases List.mem_cons.mp hobs with rfl | hobs
        · show cur.completed + 1 ≤ cur.completed + (rest.length + 1) ∧
              cur.valid + cur.failed ≤ cur.completed + 1 ∧
              cur.completed + 1 ≤ cur.valid + cur.failed + 1 ∧ cur.total = cur.total
          exact ⟨by omega, by omega, by omega, rfl⟩
        rcases List.mem_cons.mp hobs with rfl | hobs
        · show cur.completed + 1 ≤ cur.completed + (rest.length + 1) ∧
              validated.length + cur.failed ≤ cur.completed + 1 ∧
              cur.completed + 1 ≤ validated.length + cur.failed + 1 ∧
              cur.total = cur.total
          exact ⟨by omega, by omega, by omega, rfl⟩
        rcases List.mem_cons.mp hobs with rfl | hobs
        · show cur.completed + 1 ≤ cur.completed + (rest.length + 1) ∧
              validated.length + (failed ++ [url]).length ≤ cur.completed + 1 ∧
              cur.completed + 1 ≤ validated.length + (failed ++ [url]).length + 1 ∧
              cur.total = cur.total
          exact ⟨by omega, by omega, by omega, rfl⟩
        · obtain ⟨g1, g2, g3, g4⟩ := ih (i + 1) validated (failed ++ [url]) _ rfl rfl
            (show cur.completed + 1 = validated.length + (failed ++ [url]).length by omega)
            obs hobs
          have g1' : obs.completed ≤ (cur.completed + 1) + rest.length := g1
          have g4' : obs.total = cur.total := g4
          refine ⟨?_, g2, g3, g4'⟩
          show obs.completed ≤ cur.completed + (rest.length + 1)
          omega

theorem workerSteps_chain (cancelFrom : Option Nat) (wv wr : Bool) :
    ∀ (items : List ProbeItem) (i : Nat) (validated failed : List String) (cur : VObs),
      cur.valid = validated.length → cur.failed = failed.length →
      List.Chain' obsLe (cur :: workerSteps cancelFrom wv wr items i validated failed cur) := by
  intro items
  induction items with
  | nil =>
    intro i validated failed cur hv hf
    show List.Chain' obsLe (cur :: finishSteps wv wr validated failed cur)
    unfold finishSteps
    split_ifs <;> simp [List.chain'_cons, obsLe]
  | cons it rest ih =>
    intro i validated failed cur hv hf
    obtain ⟨url, oc⟩ := it
    by_cases hcan : cancelHit cancelFrom i
    · simp only [workerSteps, if_pos hcan]
      simp [List.chain'_cons, obsLe]
    · simp only [workerSteps, if_neg hcan]
      cases oc with
      | some u =>
        have hlen : (validated ++ [u]).length = validated.length + 1 := by simp
        refine List.chain'_cons.mpr ⟨?_, List.chain'_cons.mpr ⟨?_,
          List.chain'_cons.mpr ⟨?_, ?_⟩⟩⟩
        · show cur.completed ≤ cur.completed + 1 ∧ cur.valid ≤ cur.valid ∧
              cur.failed ≤ cur.failed
          exact ⟨by omega, le_refl _, le_refl _⟩
        · show cur.completed + 1 ≤ cur.completed + 1 ∧
              cur.valid ≤ (validated ++ [u]).length ∧ cur.failed ≤ cur.failed
          exact ⟨le_refl _, by omega, le_refl _⟩
        · show cur.completed + 1 ≤ cur.completed + 1 ∧
              (validated ++ [u]).length ≤ (validated ++ [u]).length ∧
              cur.failed ≤ failed.length
          exact ⟨le_refl _, le_refl _, by omega⟩
        · exact ih (i + 1) (validated ++ [u]) failed _ rfl rfl
      | none =>
        have hlen : (failed ++ [url]).length = failed.length + 1 := by simp
        refine List.chain'_cons.mpr ⟨?_, List.chain'_cons.mpr ⟨?_,
          List.chain'_cons.mpr ⟨?_, ?_⟩⟩⟩
        · show cur.completed ≤ cur.completed + 1 ∧ cur.valid ≤ cur.valid ∧
              cur.failed ≤ cur.failed
          exact ⟨by omega, le_refl _, le_refl _⟩
        · show cur.completed + 1 ≤ cur.completed + 1 ∧
              cur.valid ≤ validated.length ∧ cur.failed ≤ cur.failed
          exact ⟨le_refl _, by omega, le_refl _⟩
        · show cur.completed + 1 ≤ cur.completed + 1 ∧
              validated.length ≤ validated.length ∧
              cur.failed ≤ (failed ++ [url]).length
          exact ⟨le_refl _, le_refl _, by omega⟩
        · exact ih (i + 1) validated (failed ++ [url]) _ rfl rfl

theorem workerSteps_last_sum (cancelFrom : Option Nat) (wv wr : Bool) :
    ∀ (items : List ProbeItem) (i : Nat) (validated failed : List String) (cur : VObs),
      cur.valid = validated.length → cur.failed = failed.length →
      cur.completed = cur.valid + cur.failed →
      ∀ obs, (workerSteps cancelFrom wv wr items i validated failed cur).getLast? = some obs →
        obs.valid + obs.failed = obs.completed := by
  intro items
  induction items with
  | nil =>
    intro i validated failed cur hv hf hc obs hlast
    have hmem : obs ∈ finishSteps wv wr validated failed cur := getLast?_mem_list hlast
    obtain ⟨h1, h2, h3, _⟩ := finishSteps_counters wv wr validated failed cur obs hmem
    omega
  | cons it rest ih =>
    intro i validated failed cur hv hf hc obs hlast
    obtain ⟨url, oc⟩ := it
    by_cases hcan : cancelHit cancelFrom i
    · simp only [workerSteps, if_pos hcan] at hlast
      have : ({ cur with status := VStatus.cancelled } : VObs) = obs := by
        simpa using hlast
      subst this
      show cur.valid + cur.failed = cur.completed
      omega
    · cases oc with
      | some u =>
        simp only [workerSteps, if_neg hcan] at hlast
        have hne := workerSteps_ne_nil cancelFrom wv wr rest (i + 1) (validated ++ [u]) failed
        rw [getLast?_cons_of_ne_nil _ (by simp), getLast?_cons_of_ne_nil _ (by simp),
            getLast?_cons_of_ne_nil _ (hne _)] at hlast
        have hlen : (validated ++ [u]).length = validated.length + 1 := by simp
        exact ih (i + 1) (validated ++ [u]) failed _ rfl rfl
          (show cur.completed + 1 = (validated ++ [u]).length + failed.length by omega)
          obs hlast
      | none =>
        simp only [workerSteps, if_neg hcan] at hlast
        have hne := workerSteps_ne_nil cancelFrom wv wr rest (i + 1) validated (failed ++ [url])
        rw [getLast?_cons_of_ne_nil _ (by simp), getLast?_cons_of_ne_nil _ (by simp),
            getLast?_cons_of_ne_nil _ (hne _)] at hlast
        have hlen : (failed ++ [url]).length = failed.length + 1 := by simp
        exact ih (i + 1) validated (failed ++ [url]) _ rfl rfl
          (show cur.completed + 1 = validated.length + (failed ++ [url]).length by omega)
          obs hlast

theorem workerSteps_cancelled (wv wr : Bool) (k : Nat) :
    ∀ (items : List ProbeItem) (i : Nat) (validated failed : List String) (cur : VObs),
      i ≤ k → k < i + items.length →
      ∃ obs, (workerSteps (some k) wv wr items i validated failed cur).getLast? = some obs ∧
        obs.status = VStatus.cancelled ∧ obs.completed = cur.completed + (k - i) ∧
        obs.validatedArt = cur.validatedArt ∧ obs.reportArt = cur.reportArt ∧
        obs.total = cur.total := by
  intro items
  induction items with
  | nil =>
    intro i validated failed cur h1 h2
    simp only [List.length_nil] at h2
    omega
  | cons it rest ih =>
    intro i validated failed cur h1 h2
    obtain ⟨url, oc⟩ := it
    by_cases hik : i = k
    · subst hik
      have hcan : cancelHit (some i) i = true := by simp [cancelHit]
      refine ⟨{ cur with status := VStatus.cancelled }, ?_, rfl, ?_, rfl, rfl, rfl⟩
      · simp only [workerSteps, if_pos hcan]
        rfl
      · show cur.completed = cur.completed + (i - i)
        omega
    · have hcan : ¬ cancelHit (some k) i = true := by
        simp only [cancelHit, decide_eq_true_eq]
        omega
      cases oc with
      | some u =>
        obtain ⟨obs, hlast, hst, hcomp, hva, hra, htot⟩ :=
          ih (i + 1) (validated ++ [u]) failed
            ({ cur with completed := cur.completed + 1,
                        valid := (validated ++ [u]).length, failed := failed.length })
            (by omega) (by simp only [List.length_cons] at h2 ⊢; omega)
        refine ⟨obs, ?_, hst, ?_, hva, hra, htot⟩
        · simp only [workerSteps, if_neg hcan]
          have hne := workerSteps_ne_nil (some k) wv wr rest (i + 1) (validated ++ [u]) failed
          rw [getLast?_cons_of_ne_nil _ (by simp), getLast?_cons_of_ne_nil _ (by simp),
              getLast?_cons_of_ne_nil _ (hne _)]
          exact hlast
        · have hcomp' : obs.completed = (cur.completed + 1) + (k - (i + 1)) := hcomp
          omega
      | none =>
        obtain ⟨obs, hlast, hst, hcomp, hva, hra, htot⟩ :=
          ih (i + 1) validated (failed ++ [url])
            ({ cur with completed := cur.completed + 1,
                        valid := validated.length, failed := (failed ++ [url]).length })
            (by omega) (by simp only [List.length_cons] at h2 ⊢; omega)
        refine ⟨obs, ?_, hst, ?_, hva, hra, htot⟩
        · simp only [workerSteps, if_neg hcan]
          have hne := workerSteps_ne_nil (some k) wv wr rest (i + 1) validated (failed ++ [url])
          rw [getLast?_cons_of_ne_nil _ (by simp), getLast?_cons_of_ne_nil _ (by simp),
              getLast?_cons_of_ne_nil _ (hne _)]
          exact hlast
        · have hcomp' : obs.completed = (cur.completed + 1) + (k - (i + 1)) := hcomp
          omega

theorem finishSteps_getLast (wv wr : Bool) (validated failed : List String) (cur : VObs) :
    (finishSteps wv wr validated failed cur).getLast? =
      some { cur with
        status := (if wv then (if wr then VStatus.done else VStatus.error) else VStatus.error),
        validatedArt := (if wv then some (validatedContent validated) else cur.validatedArt),
        reportArt := (if wv = true ∧ wr = true then some (reportContent validated failed)
                      else cur.reportArt) } := by
  by_cases h1 : wv
  · by_cases h2 : wr
    · simp only [finishSteps, h1, h2, if_true, and_self]
      rfl
    · simp only [finishSteps, h1, h2, if_true, if_false, and_false]
      rfl
  · simp only [finishSteps, h1, if_false, false_and]
    rfl

theorem workerSteps_complete (wv wr : Bool) (cancelFrom : Option Nat) :
    ∀ (items : List ProbeItem) (i : Nat) (validated failed : List String) (cur : VObs),
      (∀ j, i ≤ j → j < i + items.length → ¬ cancelHit cancelFrom j = true) →
      cur.valid = validated.length → cur.failed = failed.length →
      ∃ obs, (workerSteps cancelFrom wv wr items i validated failed cur).getLast? = some obs ∧
        obs.status = (if wv then (if wr then VStatus.done else VStatus.error)
                      else VStatus.error) ∧
        obs.completed = cur.completed + items.length ∧
        obs.valid = validated.length + (okUrls items).length ∧
        obs.failed = failed.length + (failedUrls items).length ∧
        obs.validatedArt = (if wv then some (validatedContent (validated ++ okUrls items))
                            else cur.validatedArt) ∧
        obs.reportArt = (if wv = true ∧ wr = true then
              some (reportContent (validated ++ okUrls items) (failed ++ failedUrls items))
            else cur.reportArt) ∧
        obs.total = cur.total := by
  intro items
  induction items with
  | nil =>
    intro i validated failed cur hnc hv hf
    refine ⟨_, finishSteps_getLast wv wr validated failed cur, rfl, rfl, ?_, ?_, ?_, ?_, rfl⟩
    · exact hv
    · exact hf
    · rw [show okUrls ([] : List ProbeItem) = [] from rfl, List.append_nil]
    · rw [show okUrls ([] : List ProbeItem) = [] from rfl,
          show failedUrls ([] : List ProbeItem) = [] from rfl,
          List.append_nil, List.append_nil]
  | cons it rest ih =>
    intro i validated failed cur hnc hv hf
    obtain ⟨url, oc⟩ := it
    have hcan : ¬ cancelHit cancelFrom i = true :=
      hnc i (le_refl i) (by simp only [List.length_cons]; omega)
    cases oc with
    | some u =>
      obtain ⟨obs, hlast, hst, hcomp, hvv, hff, hva, hra, htot⟩ :=
        ih (i + 1) (validated ++ [u]) failed
          ({ cur with completed := cur.completed + 1,
                      valid := (validated ++ [u]).length, failed := failed.length })
          (fun j hj1 hj2 => hnc j (by omega) (by simp only [List.length_cons]; omega))
          rfl rfl
      have hlen : (validated ++ [u]).length = validated.length + 1 := by simp
      refine ⟨obs, ?_, hst, ?_, ?_, ?_, ?_, ?_, htot⟩
      · simp only [workerSteps, if_neg hcan]
        have hne := workerSteps_ne_nil cancelFrom wv wr rest (i + 1) (validated ++ [u]) failed
        rw [getLast?_cons_of_ne_nil _ (by simp), getLast?_cons_of_ne_nil _ (by simp),
            getLast?_cons_of_ne_nil _ (hne _)]
        exact hlast
      · have h' : obs.completed = (cur.completed + 1) + rest.length := hcomp
        show obs.completed = cur.completed + (rest.length + 1)
        omega
      · have h' : obs.valid = (validated ++ [u]).length + (okUrls rest).length := hvv
        show obs.valid = validated.length + (okUrls ((url, some u) :: rest)).length
        rw [okUrls_cons_some]
        simp only [List.length_cons]
        omega
      · have h' : obs.failed = failed.length + (failedUrls rest).length := hff
        show obs.failed = failed.length + (failedUrls ((url, some u) :: rest)).length
        rw [failedUrls_cons_some]
        exact h'
      · have h' : obs.validatedArt =
            (if wv then some (validatedContent ((validated ++ [u]) ++ okUrls rest))
             else cur.validatedArt) := hva
        show obs.validatedArt =
            (if wv then some (validatedContent (validated ++ okUrls ((url, some u) :: rest)))
             else cur.validatedArt)
        rw [okUrls_cons_some]
        rw [List.append_assoc] at h'
        exact h'
      · have h' : obs.reportArt =
            (if wv = true ∧ wr = true then
              some (reportContent ((validated ++ [u]) ++ okUrls rest)
                (failed ++ failedUrls rest))
             else cur.reportArt) := hra
        show obs.reportArt =
            (if wv = true ∧ wr = true then
              some (reportContent (validated ++ okUrls ((url, some u) :: rest))
                (failed ++ failedUrls ((url, some u) :: rest)))
             else cur.reportArt)
        rw [okUrls_cons_some, failedUrls_cons_some]
        rw [List.append_assoc] at h'
        exact h'
    | none =>
      obtain ⟨obs, hlast, hst, hcomp, hvv, hff, hva, hra, htot⟩ :=
        ih (i + 1) validated (failed ++ [url])
          ({ cur with completed := cur.completed + 1,
                      valid := validated.length, failed := (failed ++ [url]).length })
          (fun j hj1 hj2 => hnc j (by omega) (by simp only [List.length_cons]; omega))
          rfl rfl
      have hlen : (failed ++ [url]).length = failed.length + 1 := by simp
      refine ⟨obs, ?_, hst, ?_, ?_, ?_, ?_, ?_, htot⟩
      · simp only [workerSteps, if_neg hcan]
        have hne := workerSteps_ne_nil cancelFrom wv wr rest (i + 1) validated (failed ++ [url])
        rw [getLast?_cons_of_ne_nil _ (by simp), getLast?_cons_of_ne_nil _ (by simp),
            getLast?_cons_of_ne_nil _ (hne _)]
        exact hlast
      · have h' : obs.completed = (cur.completed + 1) + rest.length := hcomp
        show obs.completed = cur.completed + (rest.length + 1)
        omega
      · have h' : obs.valid = validated.length + (okUrls rest).length := hvv
        show obs.valid = validated.length + (okUrls ((url, none) :: rest)).length
        rw [okUrls_cons_none]
        exact h'
      · have h' : obs.failed = (failed ++ [url]).length + (failedUrls rest).length := hff
        show obs.failed = failed.length + (failedUrls ((url, none) :: rest)).length
        rw [failedUrls_cons_none]
        simp only [List.length_cons]
        omega
      · have h' : obs.validatedArt =
            (if wv then some (validatedContent (validated ++ okUrls rest))
             else cur.validatedArt) := hva
        show obs.validatedArt =
            (if wv then some (validatedContent (validated ++ okUrls ((url, none) :: rest)))
             else cur.validatedArt)
        rw [okUrls_cons_none]
        exact h'
      · have h' : obs.reportArt =
            (if wv = true ∧ wr = true then
              some (reportContent (validated ++ okUrls rest)
                ((failed ++ [url]) ++ failedUrls rest))
             else cur.reportArt) := hra
        show obs.reportArt =
            (if wv = true ∧ wr = true then
              some (reportContent (validated ++ okUrls ((url, none) :: rest))
                (failed ++ failedUrls ((url, none) :: rest)))
             else cur.reportArt)
        rw [okUrls_cons_none, failedUrls_cons_none]
        rw [List.append_assoc] at h'
        exact h'

theorem runFinal_of_last {cancelFrom : Option Nat} {wv wr : Bool} {items : List ProbeItem}
    {obs : VObs}
    (h : (workerSteps cancelFrom wv wr items 0 [] [] (vinit items)).getLast? = some obs) :
    runFinal cancelFrom wv wr items = obs := by
  unfold runFinal runTrace
  rw [List.getLastD_cons, List.getLastD_eq_getLast?, h]
  rfl

/-!
## Claims C1, C2, C3, C5 (validation engine)
-/

/-- C1 counterexample: in a one-URL run whose probe succeeds, the
observation right after `state.validation_completed += 1` (trace index 1)
already has `completed = 1` while `valid = failed = 0`, so an observer
polling between the three separate counter assignments sees
`valid + failed ≠ completed`. -/
theorem c1_counterexample :
    (runTrace none true true [(("https://a.com" : String), some ("https://a.com/"))]).get? 1 =
      some ⟨VStatus.running, 1, 1, 0, 0, none, none⟩ ∧
    (0 + 0 : Nat) ≠ 1 := ⟨rfl, by decide⟩

/-- C1 (amended): at every observation point of a Validation Run,
`total = N`, `completed ≤ N`, and `completed - 1 ≤ valid + failed ≤
completed` (the exact equality `valid + failed = completed` can be violated
by one transiently, between the increment of `completed` and the updates of
`valid`/`failed`, but holds again at each per-URL boundary and at the final,
frozen state); all three counters are non-decreasing across successive
observations. -/
theorem c1_validation_counters (cancelFrom : Option Nat) (wv wr : Bool)
    (items : List ProbeItem) :
    (∀ obs ∈ runTrace cancelFrom wv wr items,
      obs.total = items.length ∧
      obs.completed ≤ items.length ∧
      obs.valid + obs.failed ≤ obs.completed ∧
      obs.completed ≤ obs.valid + obs.failed + 1) ∧
    List.Chain' obsLe (runTrace cancelFrom wv wr items) ∧
    (runFinal cancelFrom wv wr items).valid + (runFinal cancelFrom wv wr items).failed
      = (runFinal cancelFrom wv wr items).completed := by
  refine ⟨?_, ?_, ?_⟩
  · intro obs hobs
    rcases List.mem_cons.mp hobs with rfl | hobs
    · exact ⟨rfl, Nat.zero_le _, le_refl 0, Nat.le_succ 0⟩
    · obtain ⟨g1, g2, g3, g4⟩ :=
        workerSteps_bounds cancelFrom wv wr items 0 [] [] (vinit items) rfl rfl rfl obs hobs
      have g1' : obs.completed ≤ 0 + items.length := g1
      have g4' : obs.total = items.length := g4
      exact ⟨g4', by omega, g2, g3⟩
  · exact workerSteps_chain cancelFrom wv wr items 0 [] [] (vinit items) rfl rfl
  · have hne := workerSteps_ne_nil cancelFrom wv wr items 0 [] [] (vinit items)
    obtain ⟨obs, hlast⟩ := Option.isSome_iff_exists.mp (List.getLast?_isSome.mpr hne)
    rw [runFinal_of_last hlast]
    exact workerSteps_last_sum cancelFrom wv wr items 0 [] [] (vinit items) rfl rfl rfl obs hlast

theorem c1_validation_counters_witness :
    ((⟨VStatus.running, 1, 1, 1, 0, none, none⟩ : VObs).valid +
        (⟨VStatus.running, 1, 1, 1, 0, none, none⟩ : VObs).failed ≤
      (⟨VStatus.running, 1, 1, 1, 0, none, none⟩ : VObs).completed) ∧
    (runFinal none true true [(("https://a.com" : String), some ("https://a.com/"))]).valid +
        (runFinal none true true [(("https://a.com" : String), some ("https://a.com/"))]).failed
      = (runFinal none true true
          [(("https://a.com" : String), some ("https://a.com/"))]).completed :=
  ⟨((c1_validation_counters none true true
      [(("https://a.com" : String), some ("https://a.com/"))]).1
    ⟨VStatus.running, 1, 1, 1, 0, none, none⟩ (by decide)).2.2.1,
   (c1_validation_counters none true true
      [(("https://a.com" : String), some ("https://a.com/"))]).2.2⟩

/-- C2: if the cancellation flag is set after exactly `k < N` URLs are
processed (so the check before URL `k+1` sees it), the run terminates with
status `"cancelled"`, `completed = k`, and neither `jobs_validated.txt` nor
`jobs_report.txt` is written. -/
theorem c2_cancellation (items : List ProbeItem) (k : Nat) (wv wr : Bool)
    (hk : k < items.length) :
    (runFinal (some k) wv wr items).status = VStatus.cancelled ∧
    (runFinal (some k) wv wr items).completed = k ∧
    (runFinal (some k) wv wr items).validatedArt = none ∧
    (runFinal (some k) wv wr items).reportArt = none := by
  obtain ⟨obs, hlast, hst, hcomp, hva, hra, htot⟩ :=
    workerSteps_cancelled wv wr k items 0 [] [] (vinit items) (Nat.zero_le k) (by omega)
  rw [runFinal_of_last hlast]
  refine ⟨hst, ?_, hva, hra⟩
  have h' : obs.completed = 0 + (k - 0) := hcomp
  omega

theorem c2_cancellation_witness :
    1 < ([(("https://a.com" : String), some ("https://a.com/")),
          (("https://b.com" : String), none)] : List ProbeItem).length ∧
    (runFinal (some 1) true true
        [(("https://a.com" : String), some ("https://a.com/")),
         (("https://b.com" : String), none)]).status = VStatus.cancelled ∧
    (runFinal (some 1) true true
        [(("https://a.com" : String), some ("https://a.com/")),
         (("https://b.com" : String), none)]).completed = 1 ∧
    (runFinal (some 1) true true
        [(("https://a.com" : String), some ("https://a.com/")),
         (("https://b.com" : String), none)]).validatedArt = none ∧
    (runFinal (some 1) true true
        [(("https://a.com" : String), some ("https://a.com/")),
         (("https://b.com" : String), none)]).reportArt = none :=
  ⟨by decide, c2_cancellation _ 1 true true (by decide)⟩

theorem mem_okUrls {items : List ProbeItem} {u : String} (h : u ∈ okUrls items) :
    ∃ p ∈ items, p.2 = some u := by
  unfold okUrls at h
  obtain ⟨p, hp, hfp⟩ := List.mem_filterMap.mp h
  exact ⟨p, hp, hfp⟩

theorem mem_failedUrls {items : List ProbeItem} {u : String} (h : u ∈ failedUrls items) :
    ∃ p ∈ items, p.1 = u ∧ p.2 = none := by
  unfold failedUrls at h
  obtain ⟨p, hp, hfp⟩ := List.mem_filterMap.mp h
  refine ⟨p, hp, ?_⟩
  cases hp2 : p.2 with
  | none =>
    rw [hp2] at hfp
    exact ⟨by injection hfp, rfl⟩
  | some v =>
    rw [hp2] at hfp
    cases hfp

/-- C3 counterexample: a completed run whose single URL fails writes a
`jobs_validated.txt` consisting of one blank line (`"\n".join([]) + "\n"`),
i.e. 1 line, although `valid = 0` — not "exactly `valid` lines". -/
theorem c3_counterexample :
    runFinal none true true [(("https://dead.example.com" : String), none)] =
      ⟨VStatus.done, 1, 1, 0, 1, some ("\n"),
        some ("Validated: 0\nFailed: 1\n\nFailed URLs:\nhttps://dead.example.com\n")⟩ ∧
    (pySplitlines ("\n")).length = 1 ∧ (1 : Nat) ≠ 0 := ⟨rfl, rfl, by decide⟩

/-- C3 (amended): a run over whitespace-free URLs that processes all `N`
URLs without cancellation and with both writes succeeding ends with status
`"done"`, writes both artifacts, `jobs_validated.txt` is
`"\n".join(valid urls) + "\n"` (exactly `valid` lines — the final, possibly
redirected, URLs in probe order — whenever `valid ≥ 1`; a single blank line
when `valid = 0`), and `jobs_report.txt` splits into the lines
`Validated: <n>`, `Failed: <n>`, a blank line, `Failed URLs:`, then exactly
`failed` lines holding the originally-requested failed URLs. -/
theorem c3_done_run (items : List ProbeItem)
    (hitems : ∀ p ∈ items, p.1 ≠ "" ∧ (∀ c ∈ p.1.data, pyIsSpace c = false) ∧
      ∀ s, p.2 = some s → s ≠ "" ∧ (∀ c ∈ s.data, pyIsSpace c = false)) :
    (runFinal none true true items).status = VStatus.done ∧
    (runFinal none true true items).valid = (okUrls items).length ∧
    (runFinal none true true items).failed = (failedUrls items).length ∧
    (runFinal none true true items).validatedArt = some (validatedContent (okUrls items)) ∧
    (runFinal none true true items).reportArt =
      some (reportContent (okUrls items) (failedUrls items)) ∧
    pySplitlines (reportContent (okUrls items) (failedUrls items)) =
      reportLines (okUrls items) (failedUrls items) ∧
    (okUrls items ≠ [] → pySplitlines (validatedContent (okUrls items)) = okUrls items) := by
  have hok : ∀ u ∈ okUrls items, u ≠ "" ∧ ∀ c ∈ u.data, pyIsSpace c = false := by
    intro u hu
    obtain ⟨p, hp, hps⟩ := mem_okUrls hu
    exact (hitems p hp).2.2 u hps
  have hfl : ∀ u ∈ failedUrls items, u ≠ "" ∧ ∀ c ∈ u.data, pyIsSpace c = false := by
    intro u hu
    obtain ⟨p, hp, hp1, _⟩ := mem_failedUrls hu
    subst hp1
    exact ⟨(hitems p hp).1, (hitems p hp).2.1⟩
  obtain ⟨obs, hlast, hst, hcomp, hvv, hff, hva, hra, htot⟩ :=
    workerSteps_complete true true none items 0 [] [] (vinit items)
      (by intro j _ _; simp [cancelHit]) rfl rfl
  rw [runFinal_of_last hlast]
  refine ⟨hst, ?_, ?_, hva, hra, ?_, ?_⟩
  · have h' : obs.valid = 0 + (okUrls items).length := hvv
    omega
  · have h' : obs.failed = 0 + (failedUrls items).length := hff
    omega
  · exact reportContent_splitlines (okUrls items) (failedUrls items) hfl
  · intro hne
    exact validatedContent_splitlines (okUrls items) hne
      (fun u hu c hc => (hok u hu).2 c hc)

theorem c3_done_run_witness :
    (runFinal none true true
        [(("https://a.com/job/1" : String), some ("https://a.com/job/1")),
         (("https://gone.example" : String), none)]).status = VStatus.done ∧
    pySplitlines (validatedContent (okUrls
        [(("https://a.com/job/1" : String), some ("https://a.com/job/1")),
         (("https://gone.example" : String), none)])) =
      okUrls [(("https://a.com/job/1" : String), some ("https://a.com/job/1")),
              (("https://gone.example" : String), none)] := by
  have h := c3_done_run
    [(("https://a.com/job/1" : String), some ("https://a.com/job/1")),
     (("https://gone.example" : String), none)]
    (by
      intro p hp
      fin_cases hp
      · refine ⟨by decide, by decide, ?_⟩
        intro s hs
        injection hs with hs
        subst hs
        exact ⟨by decide, by decide⟩
      · refine ⟨by decide, by decide, ?_⟩
        intro s hs
        cases hs)
  exact ⟨h.1, h.2.2.2.2.2.2 (by decide)⟩

/-- C5 counterexample: in a run whose `jobs_validated.txt` write succeeds
but whose `jobs_report.txt` write raises, the terminal status is `"error"`
yet `jobs_validated.txt` has already been overwritten — an errored run is
not write-free, refuting the claimed all-or-nothing write-back. -/
theorem c5_counterexample :
    (runFinal none true false
        [(("https://a.com" : String), some ("https://a.com/"))]).status = VStatus.error ∧
    (runFinal none true false
        [(("https://a.com" : String), some ("https://a.com/"))]).validatedArt =
      some ("https://a.com/\n") := ⟨rfl, rfl⟩

/-- C5 (amended): a cancelled run writes neither artifact; an errored run
never writes the report, but may already have written the validated list
(exactly when the failure occurred while writing the report); a "done" run
has written both artifacts. -/
theorem c5_artifact_writes (cancelFrom : Option Nat) (wv wr : Bool) (items : List ProbeItem) :
    ((runFinal cancelFrom wv wr items).status = VStatus.cancelled →
      (runFinal cancelFrom wv wr items).validatedArt = none ∧
      (runFinal cancelFrom wv wr items).reportArt = none) ∧
    ((runFinal cancelFrom wv wr items).status = VStatus.error →
      (runFinal cancelFrom wv wr items).reportArt = none) ∧
    ((runFinal cancelFrom wv wr items).status = VStatus.done →
      (runFinal cancelFrom wv wr items).validatedArt =
        some (validatedContent (okUrls items)) ∧
      (runFinal cancelFrom wv wr items).reportArt =
        some (reportContent (okUrls items) (failedUrls items))) := by
  have hcancel : ∀ k, k < items.length →
      (runFinal (some k) wv wr items).status = VStatus.cancelled ∧
      (runFinal (some k) wv wr items).validatedArt = none ∧
      (runFinal (some k) wv wr items).reportArt = none := by
    intro k hk
    obtain ⟨obs, hlast, hst, _, hva, hra, _⟩ :=
      workerSteps_cancelled wv wr k items 0 [] [] (vinit items) (Nat.zero_le k) (by omega)
    rw [runFinal_of_last hlast]
    exact ⟨hst, hva, hra⟩
  have hcomplete : (∀ j, 0 ≤ j → j < 0 + items.length → ¬ cancelHit cancelFrom j = true) →
      ((runFinal cancelFrom wv wr items).status = VStatus.cancelled →
        (runFinal cancelFrom wv wr items).validatedArt = none ∧
        (runFinal cancelFrom wv wr items).reportArt = none) ∧
      ((runFinal cancelFrom wv wr items).status = VStatus.error →
        (runFinal cancelFrom wv wr items).reportArt = none) ∧
      ((runFinal cancelFrom wv wr items).status = VStatus.done →
        (runFinal cancelFrom wv wr items).validatedArt =
          some (validatedContent (okUrls items)) ∧
        (runFinal cancelFrom wv wr items).reportArt =
          some (reportContent (okUrls items) (failedUrls items))) := by
    intro hnc
    obtain ⟨obs, hlast, hst, hcomp, hvv, hff, hva, hra, htot⟩ :=
      workerSteps_complete wv wr cancelFrom items 0 [] [] (vinit items) hnc rfl rfl
    rw [runFinal_of_last hlast]
    by_cases h1 : wv
    · by_cases h2 : wr
      · rw [if_pos h1, if_pos h2] at hst
        rw [if_pos h1] at hva
        rw [if_pos ⟨h1, h2⟩] at hra
        refine ⟨?_, ?_, ?_⟩
        · intro habs; rw [hst] at habs; cases habs
        · intro habs; rw [hst] at habs; cases habs
        · intro _
          constructor
          · rw [hva]; rfl
          · rw [hra]; rfl
      · rw [if_pos h1, if_neg h2] at hst
        rw [if_neg (fun h => h2 h.2)] at hra
        refine ⟨?_, ?_, ?_⟩
        · intro habs; rw [hst] at habs; cases habs
        · intro _; exact hra
        · intro habs; rw [hst] at habs; cases habs
    · rw [if_neg h1] at hst
      rw [if_neg (fun h => h1 h.1)] at hra
      refine ⟨?_, ?_, ?_⟩
      · intro habs; rw [hst] at habs; cases habs
      · intro _; exact hra
      · intro habs; rw [hst] at habs; cases habs
  cases cancelFrom with
  | none => exact hcomplete (by intro j _ _; simp [cancelHit])
  | some k =>
    by_cases hk : k < items.length
    · obtain ⟨hst, hva, hra⟩ := hcancel k hk
      refine ⟨fun _ => ⟨hva, hra⟩, ?_, ?_⟩
      · intro habs; rw [hst] at habs; cases habs
      · intro habs; rw [hst] at habs; cases habs
    · exact hcomplete (by
        intro j _ hj
        simp only [cancelHit, decide_eq_true_eq]
        omega)

theorem c5_artifact_writes_witness :
    (runFinal (some 0) true true
        [(("https://a.com" : String), some ("https://a.com/"))]).validatedArt = none ∧
    (runFinal (some 0) true true
        [(("https://a.com" : String), some ("https://a.com/"))]).reportArt = none :=
  (c5_artifact_writes (some 0) true true
    [(("https://a.com" : String), some ("https://a.com/"))]).1 (by decide)

/-!
## Claims C4, C7, C10 (URL normalizer and file reader)
-/

/-- C4 counterexample: on the scenario file content `read_urls` also counts
the comment line (`"#comment".strip()` is truthy, and `read_urls` counts
every rejected non-blank line), so the skipped count is 2, not 1. -/
theorem c4_counterexample :
    read_urls ("https://a.com/job/1\n\nexample.com\n  bad line\n#comment\n") =
      Except.ok (["https://a.com/job/1", "https://example.com"], 2, 5) ∧
    (2 : Nat) ≠ 1 := ⟨rfl, by decide⟩

/-- C4 (amended): for the scenario content, `read_urls` returns the
normalized list `["https://a.com/job/1", "https://example.com"]` and a
skipped count of exactly 2 — the whitespace-containing line and the
`#`-comment line (blank lines contribute nothing). -/
theorem c4_read_urls_scenario :
    read_urls ("https://a.com/job/1\n\nexample.com\n  bad line\n#comment\n") =
      Except.ok (["https://a.com/job/1", "https://example.com"], 2, 5) := rfl

/-- C7: `normalize_url` is not total — on the line `"http://[a"` the
`urlparse` call raises `ValueError("Invalid IPv6 URL")` (unbalanced bracket
in the authority), and `normalize_url` has no handler for it, so the
exception escapes instead of returning `Some`/`None`. -/
theorem c7_normalize_url_raises :
    normalize_url ("http://[a") = Except.error ("Invalid IPv6 URL") := rfl

/-- C10 counterexample: the trimmed line `"https://a.com/x\ry"` contains
interior whitespace (`'\r'`), yet `normalize_url` accepts it — the
`.replace("\r", "")` deletes carriage returns everywhere (not only at the
ends) before the interior-whitespace check, so interior `'\r'` does not
cause rejection. -/
theorem c10_counterexample :
    normalize_url ("https://a.com/x\ry") = Except.ok (some ("https://a.com/xy")) ∧
    '\r' ∈ (pyStrip ("https://a.com/x\ry")).data ∧ pyIsSpace '\r' = true :=
  ⟨rfl, by decide, rfl⟩

/-- C10 (amended): `normalize_url` strips leading and trailing whitespace
before applying any rule — for every raw line the result equals the result
on the trimmed line, so a valid URL surrounded by spaces or tabs normalizes
exactly like the trimmed line — and any whitespace character other than
`'\r'` interior to the trimmed line causes rejection (interior `'\r'` is
instead deleted by the `.replace("\r", "")`). -/
theorem c10_normalize_trim (s : String) :
    normalize_url s = normalize_url (pyStrip s) ∧
    (∀ c ∈ (pyStrip s).data, pyIsSpace c = true → c ≠ '\r' →
      normalize_url s = Except.ok none) := by
  constructor
  · show normalize_core (pyStripL s.data) = normalize_core (pyStripL (pyStrip s).data)
    rw [show (pyStrip s).data = pyStripL s.data from rfl, pyStripL_idem]
  · intro c hc hsp hcr
    show normalize_core (pyStripL s.data) = Except.ok none
    have hc' : c ∈ (pyStripL s.data).filter (fun c => c ≠ '\r') := by
      apply List.mem_filter.mpr
      refine ⟨hc, ?_⟩
      simp [hcr]
    simp only [normalize_core]
    by_cases hb : ((pyStripL s.data).filter (fun c => decide (c ≠ '\r'))) = [] ∨
        ((pyStripL s.data).filter (fun c => decide (c ≠ '\r'))).headD '#' = '#'
    · rw [if_pos hb]
    · rw [if_neg hb,
        if_pos (List.any_eq_true.mpr ⟨c, hc', hsp⟩)]

theorem c10_normalize_trim_witness :
    normalize_url ("  https://a.com/job/1  ") =
      normalize_url (pyStrip ("  https://a.com/job/1  ")) ∧
    normalize_url ("https://a.com/a b") = Except.ok none :=
  ⟨(c10_normalize_trim ("  https://a.com/job/1  ")).1,
   (c10_normalize_trim ("https://a.com/a b")).2 ' ' (by decide) (by decide) (by decide)⟩

/-!
## Claim C6 (tab-opening configuration clamping)
-/

theorem read_number_go_range (default max_val : Int) (hmax : 1 ≤ max_val) :
    ∀ (keys : List Key) (buffer : List Char) (v : Int) (rest : List Key),
      read_number_go default max_val buffer keys = (some v, rest) →
      v = -1 ∨ v = default ∨ (1 ≤ v ∧ v ≤ max_val) := by
  intro keys
  induction keys with
  | nil =>
    intro buffer v rest h
    simp only [read_number_go, Prod.mk.injEq] at h
    exact absurd h.1 (by simp)
  | cons k ks ih =>
    intro buffer v rest h
    cases k with
    | enter =>
      simp only [read_number_go] at h
      by_cases hb : buffer = []
      · rw [if_pos hb] at h
        simp only [Prod.mk.injEq, Option.some.injEq] at h
        exact Or.inr (Or.inl h.1.symm)
      · rw [if_neg hb] at h
        simp only [Prod.mk.injEq, Option.some.injEq] at h
        refine Or.inr (Or.inr ?_)
        rw [← h.1]
        constructor
        · exact le_min (le_max_left 1 _) (by omega)
        · exact min_le_right _ _
    | esc =>
      simp only [read_number_go, Prod.mk.injEq, Option.some.injEq] at h
      exact Or.inl h.1.symm
    | up => exact ih buffer v rest h
    | down => exact ih buffer v rest h
    | left => exact ih buffer v rest h
    | right => exact ih buffer v rest h
    | ch c =>
      simp only [read_number_go] at h
      by_cases hb : c = 'b'
      · rw [if_pos hb] at h
        simp only [Prod.mk.injEq, Option.some.injEq] at h
        exact Or.inl h.1.symm
      · rw [if_neg hb] at h
        by_cases hd : c.isDigit
        · rw [if_pos hd] at h
          exact ih _ v rest h
        · rw [if_neg hd] at h
          by_cases hbs : c = '\x7f'
          · rw [if_pos hbs] at h
            exact ih _ v rest h
          · rw [if_neg hbs] at h
            exact ih _ v rest h

/-- C6 counterexample: entering `0` for the per-tab delay yields a delay of
1 ms, not 0 — `read_number` clamps with `min(max(1, val), max_val)`, whose
lower bound is 1. -/
theorem c6_counterexample :
    (read_number 150 5000 [Key.ch '0', Key.enter]).1 = some 1 ∧ (1 : Int) ≠ 0 :=
  ⟨rfl, by decide⟩

/-- C6 (amended): whenever `handle_open_settings` proceeds to the opening
screen, the tab limit used lies in `[1, number of available URLs]` and the
per-item delay lies in `[1, 5000]` milliseconds (within the claimed
`[0, 5000]`, but a user entry of 0 ms is clamped up to 1 ms, and an empty
entry yields the 150 ms default). -/
theorem c6_clamping (max_urls : Nat) (hm : 1 ≤ max_urls) (keys : List Key) (t d : Int)
    (h : handle_open_settings max_urls keys = OpenOutcome.proceed t d) :
    (1 ≤ t ∧ t ≤ (max_urls : Int)) ∧ (1 ≤ d ∧ d ≤ 5000) := by
  unfold handle_open_settings at h
  rcases hr1 : read_number (min 10 (max_urls : Int)) (max_urls : Int) keys with ⟨o1, rest1⟩
  rw [hr1] at h
  cases o1 with
  | none => cases h
  | some t1 =>
    dsimp only at h
    by_cases ht1 : t1 = -1
    · rw [if_pos ht1] at h
      cases h
    · rw [if_neg ht1] at h
      rcases hr2 : read_number 150 5000 rest1 with ⟨o2, rest2⟩
      rw [hr2] at h
      cases o2 with
      | none => cases h
      | some d1 =>
        dsimp only at h
        by_cases hd1 : d1 = -1
        · rw [if_pos hd1] at h
          cases h
        · rw [if_neg hd1] at h
          injection h with h1 h2
          subst h1
          subst h2
          constructor
          · rcases read_number_go_range (min 10 (max_urls : Int)) (max_urls : Int)
              (by omega) keys [] t1 rest1 hr1 with h | h | h
            · exact absurd h ht1
            · rw [h]; omega
            · exact h
          · rcases read_number_go_range 150 5000 (by omega) rest1 [] d1 rest2 hr2 with h | h | h
            · exact absurd h hd1
            · rw [h]; omega
            · exact h

theorem c6_clamping_witness :
    handle_open_settings 5 [Key.ch '9', Key.ch '9', Key.enter, Key.ch '0', Key.enter] =
      OpenOutcome.proceed 5 1 ∧
    ((1 ≤ (5 : Int) ∧ (5 : Int) ≤ (5 : Nat)) ∧ (1 ≤ (1 : Int) ∧ (1 : Int) ≤ 5000)) :=
  ⟨rfl, c6_clamping 5 (by decide) [Key.ch '9', Key.ch '9', Key.enter, Key.ch '0', Key.enter]
    5 1 rfl⟩

/-!
## Claim C8 (screen-entry re-initialization)
-/

theorem init_fold_preserves (sources : List SpecSource) :
    ∀ s : AppSt,
      ((sources.foldl (fun s src =>
          { s with ai_keywords := addNew s.ai_keywords src.keywords,
                   ai_locations := addNew s.ai_locations src.locations }) s)).selection_idx =
        s.selection_idx ∧
      ((sources.foldl (fun s src =>
          { s with ai_keywords := addNew s.ai_keywords src.keywords,
                   ai_locations := addNew s.ai_locations src.locations }) s)).ai_company_batch_idx =
        s.ai_company_batch_idx ∧
      ((sources.foldl (fun s src =>
          { s with ai_keywords := addNew s.ai_keywords src.keywords,
                   ai_locations := addNew s.ai_locations src.locations }) s)).ai_company_selected =
        s.ai_company_selected ∧
      ((sources.foldl (fun s src =>
          { s with ai_keywords := addNew s.ai_keywords src.keywords,
                   ai_locations := addNew s.ai_locations src.locations }) s)).ai_companies =
        s.ai_companies := by
  induction sources with
  | nil => intro s; exact ⟨rfl, rfl, rfl, rfl⟩
  | cons src rest ih => intro s; exact ih _

theorem init_ai_prompt_builder_fields (specs : Option SearchSpecs) (st : AppSt) :
    (init_ai_prompt_builder specs st).selection_idx = st.selection_idx ∧
    (init_ai_prompt_builder specs st).ai_company_batch_idx = 0 ∧
    (init_ai_prompt_builder specs st).ai_company_selected =
      List.replicate DEFAULT_COMPANIES.length false ∧
    (init_ai_prompt_builder specs st).ai_companies = DEFAULT_COMPANIES := by
  cases specs with
  | none => exact ⟨rfl, rfl, rfl, rfl⟩
  | some sp => exact init_fold_preserves sp.sources _

/-- C8 counterexample: a reachable locations-screen state carries the stale
cursor value 13 (left over from an earlier visit); pressing `n` enters the
company-selection screen without re-initializing any scratch state, so the
screen is entered with the cursor at 13 while the displayed batch covers
indices `[0, 10)` — the cursor is neither freshly initialized nor inside
the displayed batch. -/
theorem c8_counterexample :
    (handle_ai_locations ("", true) c8_stale (Key.ch 'n')).screen =
      ScreenT.ai_prompt_companies ∧
    (handle_ai_locations ("", true) c8_stale (Key.ch 'n')).selection_idx = 13 ∧
    ¬ ((handle_ai_locations ("", true) c8_stale (Key.ch 'n')).selection_idx <
        min ((handle_ai_locations ("", true) c8_stale (Key.ch 'n')).ai_company_batch_idx *
            COMPANY_BATCH_SIZE + COMPANY_BATCH_SIZE)
          (handle_ai_locations ("", true) c8_stale (Key.ch 'n')).ai_companies.length) :=
  ⟨rfl, rfl, by decide⟩

/-- C8 (amended): the transition that enters the company-selection screen
(`n` on the locations screen) changes only the `screen` field — it
re-initializes no scratch state — and even the main-menu `g` transition's
`init_ai_prompt_builder` resets the AI-prompt scratch (companies, selected
flags, batch index, input buffer) but leaves the shared selection cursor
untouched, so a stale cursor from a previous visit or another screen
survives entry. -/
theorem c8_screen_entry (textInput : String × Bool) (st : AppSt)
    (specs : Option SearchSpecs) (st2 : AppSt) :
    handle_ai_locations textInput st (Key.ch 'n') =
      { st with screen := ScreenT.ai_prompt_companies } ∧
    (init_ai_prompt_builder specs st2).selection_idx = st2.selection_idx ∧
    (init_ai_prompt_builder specs st2).ai_company_batch_idx = 0 ∧
    (init_ai_prompt_builder specs st2).ai_company_selected =
      List.replicate DEFAULT_COMPANIES.length false ∧
    (init_ai_prompt_builder specs st2).ai_companies = DEFAULT_COMPANIES := by
  obtain ⟨h1, h2, h3, h4⟩ := init_ai_prompt_builder_fields specs st2
  exact ⟨rfl, h1, h2, h3, h4⟩

/-!
## Claim C9 (company-selection navigation)
-/

theorem handle_ai_companies_inv (st : AppSt) (key : Key) (h : companiesInv st) :
    companiesInv (handle_ai_companies st key) ∧
    (handle_ai_companies st key).ai_companies = st.ai_companies := by
  obtain ⟨h0, h1, h2, h3⟩ := h
  simp only [COMPANY_BATCH_SIZE] at h1 h2 h3
  simp only [handle_ai_companies, COMPANY_BATCH_SIZE]
  by_cases c1 : key = Key.ch 'j' ∨ key = Key.down
  · rw [if_pos c1]
    by_cases c2 : st.selection_idx <
        min (st.ai_company_batch_idx * 10 + 10) st.ai_companies.length - 1
    · rw [if_pos c2]
      refine ⟨⟨h0, h1, ?_, ?_⟩, rfl⟩
      · show st.ai_company_batch_idx * 10 ≤ st.selection_idx + 1
        omega
      · show st.selection_idx + 1 <
            min (st.ai_company_batch_idx * 10 + 10) st.ai_companies.length
        omega
    · rw [if_neg c2]
      by_cases c3 : st.ai_company_batch_idx < (st.ai_companies.length + 10 - 1) / 10 - 1
      · rw [if_pos c3]
        refine ⟨⟨h0, ?_, ?_, ?_⟩, rfl⟩
        · show st.ai_company_batch_idx + 1 < (st.ai_companies.length + 10 - 1) / 10
          omega
        · show (st.ai_company_batch_idx + 1) * 10 ≤ (st.ai_company_batch_idx + 1) * 10
          omega
        · show (st.ai_company_batch_idx + 1) * 10 <
              min ((st.ai_company_batch_idx + 1) * 10 + 10) st.ai_companies.length
          omega
      · rw [if_neg c3]
        exact ⟨⟨h0, h1, h2, h3⟩, rfl⟩
  · rw [if_neg c1]
    by_cases c4 : key = Key.ch 'k' ∨ key = Key.up
    · rw [if_pos c4]
      by_cases c5 : st.selection_idx > st.ai_company_batch_idx * 10
      · rw [if_pos c5]
        refine ⟨⟨h0, h1, ?_, ?_⟩, rfl⟩
        · show st.ai_company_batch_idx * 10 ≤ st.selection_idx - 1
          omega
        · show st.selection_idx - 1 <
              min (st.ai_company_batch_idx * 10 + 10) st.ai_companies.length
          omega
      · rw [if_neg c5]
        by_cases c6 : st.ai_company_batch_idx > 0
        · rw [if_pos c6]
          refine ⟨⟨h0, ?_, ?_, ?_⟩, rfl⟩
          · show st.ai_company_batch_idx - 1 < (st.ai_companies.length + 10 - 1) / 10
            omega
          · show (st.ai_company_batch_idx - 1) * 10 ≤
                min ((st.ai_company_batch_idx - 1) * 10 + 10 - 1) (st.ai_companies.length - 1)
            omega
          · show min ((st.ai_company_batch_idx - 1) * 10 + 10 - 1) (st.ai_companies.length - 1) <
                min ((st.ai_company_batch_idx - 1) * 10 + 10) st.ai_companies.length
            omega
        · rw [if_neg c6]
          exact ⟨⟨h0, h1, h2, h3⟩, rfl⟩
    · rw [if_neg c4]
      by_cases c7 : key = Key.ch '<' ∨ key = Key.ch ',' ∨ key = Key.left
      · rw [if_pos c7]
        by_cases c6 : st.ai_company_batch_idx > 0
        · rw [if_pos c6]
          refine ⟨⟨h0, ?_, ?_, ?_⟩, rfl⟩
          · show st.ai_company_batch_idx - 1 < (st.ai_companies.length + 10 - 1) / 10
            omega
          · show (st.ai_company_batch_idx - 1) * 10 ≤ (st.ai_company_batch_idx - 1) * 10
            omega
          · show (st.ai_company_batch_idx - 1) * 10 <
                min ((st.ai_company_batch_idx - 1) * 10 + 10) st.ai_companies.length
            omega
        · rw [if_neg c6]
          exact ⟨⟨h0, h1, h2, h3⟩, rfl⟩
      · rw [if_neg c7]
        by_cases c9 : key = Key.ch '>' ∨ key = Key.ch '.' ∨ key = Key.right
        · rw [if_pos c9]
          by_cases c10 : st.ai_company_batch_idx < (st.ai_companies.length + 10 - 1) / 10 - 1
          · rw [if_pos c10]
            refine ⟨⟨h0, ?_, ?_, ?_⟩, rfl⟩
            · show st.ai_company_batch_idx + 1 < (st.ai_companies.length + 10 - 1) / 10
              omega
            · show (st.ai_company_batch_idx + 1) * 10 ≤ (st.ai_company_batch_idx + 1) * 10
              omega
            · show (st.ai_company_batch_idx + 1) * 10 <
                  min ((st.ai_company_batch_idx + 1) * 10 + 10) st.ai_companies.length
              omega
          · rw [if_neg c10]
            exact ⟨⟨h0, h1, h2, h3⟩, rfl⟩
        · rw [if_neg c9]
          by_cases c11 : key = Key.ch ' '
          · rw [if_pos c11]
            by_cases c12 : st.ai_company_batch_idx * 10 ≤ st.selection_idx ∧
                st.selection_idx < min (st.ai_company_batch_idx * 10 + 10) st.ai_companies.length
            · rw [if_pos c12]
              exact ⟨⟨h0, h1, h2, h3⟩, rfl⟩
            · rw [if_neg c12]
              exact ⟨⟨h0, h1, h2, h3⟩, rfl⟩
          · rw [if_neg c11]
            by_cases c13 : isDigitKey key = true
            · rw [if_pos c13]
              by_cases c14 : st.ai_company_batch_idx * 10 + digitKeyNum key - 1 <
                  min (st.ai_company_batch_idx * 10 + 10) st.ai_companies.length
              · rw [if_pos c14]
                exact ⟨⟨h0, h1, h2, h3⟩, rfl⟩
              · rw [if_neg c14]
                exact ⟨⟨h0, h1, h2, h3⟩, rfl⟩
            · rw [if_neg c13]
              by_cases c15 : key = Key.ch 'a'
              · rw [if_pos c15]
                exact ⟨⟨h0, h1, h2, h3⟩, rfl⟩
              · rw [if_neg c15]
                by_cases c16 : key = Key.ch 'c'
                · rw [if_pos c16]
                  exact ⟨⟨h0, h1, h2, h3⟩, rfl⟩
                · rw [if_neg c16]
                  by_cases c17 : key = Key.ch 'n'
                  · rw [if_pos c17]
                    exact ⟨⟨h0, h1, h2, h3⟩, rfl⟩
                  · rw [if_neg c17]
                    by_cases c18 : key = Key.ch 'b' ∨ key = Key.esc
                    · rw [if_pos c18]
                      exact ⟨⟨h0, h1, h2, h3⟩, rfl⟩
                    · rw [if_neg c18]
                      exact ⟨⟨h0, h1, h2, h3⟩, rfl⟩

theorem applyCompanyKeys_inv : ∀ (keys : List Key) (st : AppSt), companiesInv st →
    companiesInv (applyCompanyKeys st keys) ∧
    (applyCompanyKeys st keys).ai_companies = st.ai_companies := by
  intro keys
  induction keys with
  | nil => intro st h; exact ⟨h, rfl⟩
  | cons k ks ih =>
    intro st h
    obtain ⟨h1, h2⟩ := handle_ai_companies_inv st k h
    obtain ⟨g1, g2⟩ := ih (handle_ai_companies st k) h1
    exact ⟨g1, g2.trans h2⟩

/-- C9: starting from a well-formed company-selection state (the fresh-session
entry state of the screen is one), every sequence of key events keeps the
cursor and batch index inside `[0, total_candidates)`; moving down on the
last displayed candidate advances to the next page when one exists and is
a no-op on the last page; moving up on the first displayed candidate moves
to the previous page when one exists (cursor on its last candidate) and is
a no-op on the first page. -/
theorem c9_company_navigation (st : AppSt) (h : companiesInv st) :
    companiesInv freshCompaniesEntry ∧
    (∀ keys : List Key,
      companiesInv (applyCompanyKeys st keys) ∧
      (applyCompanyKeys st keys).selection_idx < st.ai_companies.length ∧
      (applyCompanyKeys st keys).ai_company_batch_idx < st.ai_companies.length) ∧
    (∀ key, (key = Key.ch 'j' ∨ key = Key.down) →
      st.selection_idx =
        min (st.ai_company_batch_idx * COMPANY_BATCH_SIZE + COMPANY_BATCH_SIZE)
          st.ai_companies.length - 1 →
      ((st.ai_company_batch_idx + 1 <
          (st.ai_companies.length + COMPANY_BATCH_SIZE - 1) / COMPANY_BATCH_SIZE →
        (handle_ai_companies st key).ai_company_batch_idx = st.ai_company_batch_idx + 1 ∧
        (handle_ai_companies st key).selection_idx =
          (st.ai_company_batch_idx + 1) * COMPANY_BATCH_SIZE) ∧
       (st.ai_company_batch_idx + 1 =
          (st.ai_companies.length + COMPANY_BATCH_SIZE - 1) / COMPANY_BATCH_SIZE →
        handle_ai_companies st key = st))) ∧
    (∀ key, (key = Key.ch 'k' ∨ key = Key.up) →
      st.selection_idx = st.ai_company_batch_idx * COMPANY_BATCH_SIZE →
      ((0 < st.ai_company_batch_idx →
        (handle_ai_companies st key).ai_company_batch_idx = st.ai_company_batch_idx - 1 ∧
        (handle_ai_companies st key).selection_idx =
          min ((st.ai_company_batch_idx - 1) * COMPANY_BATCH_SIZE + COMPANY_BATCH_SIZE - 1)
            (st.ai_companies.length - 1)) ∧
       (st.ai_company_batch_idx = 0 → handle_ai_companies st key = st))) := by
  obtain ⟨h0, h1, h2, h3⟩ := h
  simp only [COMPANY_BATCH_SIZE] at h1 h2 h3
  refine ⟨by decide, ?_, ?_, ?_⟩
  · intro keys
    obtain ⟨hi, hcomp⟩ := applyCompanyKeys_inv keys st ⟨h0, h1, h2, h3⟩
    have hlen : (applyCompanyKeys st keys).ai_companies.length = st.ai_companies.length := by
      rw [hcomp]
    obtain ⟨g0, g1, g2, g3⟩ := hi
    simp only [COMPANY_BATCH_SIZE] at g1 g3
    exact ⟨⟨g0, by simpa [COMPANY_BATCH_SIZE] using g1, g2,
        by simpa [COMPANY_BATCH_SIZE] using g3⟩, by omega, by omega⟩
  · intro key hk hsel
    simp only [COMPANY_BATCH_SIZE] at hsel
    simp only [handle_ai_companies, COMPANY_BATCH_SIZE]
    rw [if_pos hk,
      if_neg (show ¬ st.selection_idx <
          min (st.ai_company_batch_idx * 10 + 10) st.ai_companies.length - 1 by omega)]
    constructor
    · intro hnb
      rw [if_pos (show st.ai_company_batch_idx <
          (st.ai_companies.length + 10 - 1) / 10 - 1 by omega)]
      exact ⟨rfl, rfl⟩
    · intro hlast
      rw [if_neg (show ¬ st.ai_company_batch_idx <
          (st.ai_companies.length + 10 - 1) / 10 - 1 by omega)]
  · intro key hk hsel
    simp only [COMPANY_BATCH_SIZE] at hsel
    simp only [handle_ai_companies, COMPANY_BATCH_SIZE]
    rw [if_neg (show ¬ (key = Key.ch 'j' ∨ key = Key.down) by
        rcases hk with rfl | rfl <;> simp),
      if_pos hk,
      if_neg (show ¬ st.selection_idx > st.ai_company_batch_idx * 10 by omega)]
    constructor
    · intro hb
      rw [if_pos (show st.ai_company_batch_idx > 0 from hb)]
      exact ⟨rfl, rfl⟩
    · intro hb0
      rw [if_neg (show ¬ st.ai_company_batch_idx > 0 by omega)]

theorem c9_company_navigation_witness :
    companiesInv (applyCompanyKeys freshCompaniesEntry
      [Key.down, Key.down, Key.right, Key.up]) ∧
    (applyCompanyKeys freshCompaniesEntry
      [Key.down, Key.down, Key.right, Key.up]).selection_idx <
      freshCompaniesEntry.ai_companies.length ∧
    handle_ai_companies freshCompaniesEntry Key.up = freshCompaniesEntry :=
  ⟨((c9_company_navigation freshCompaniesEntry (by decide)).2.1
      [Key.down, Key.down, Key.right, Key.up]).1,
   ((c9_company_navigation freshCompaniesEntry (by decide)).2.1
      [Key.down, Key.down, Key.right, Key.up]).2.1,
   (((c9_company_navigation freshCompaniesEntry (by decide)).2.2.2 Key.up
      (Or.inr rfl)) (by decide)).2 (by decide)⟩
